import Mathlib

/-!
Shallow embedding of the state factory in `state/factory.go` (package `state`)
of this repository, together with the pieces of its data model that the
factory manipulates.

Conventions of the embedding:
* Addresses are the bech32 address strings themselves.  Invariant A of the
  spec states that the address string and its 20-byte public-key hash are in
  bijection, and `iotxaddress.GetPubkeyHash` is outside this repository, so
  the account-trie key is modelled by the address string.
* `big.Int` balances are `Nat` (the spec declares balances non-negative and
  the code guards every subtraction); voting weights are `Int` (the spec
  declares them signed, and the code subtracts without a guard).
* Nonces are Go `uint64` values.  The only arithmetic the code performs on a
  nonce is `state.Nonce + 1` in the execution loop, which is modelled with an
  explicit `% 2^64` because Go's `uint64` addition wraps around.
* The Merkle-Patricia trie is an external library (spec §1 "OUT OF SCOPE").
  It is modelled as a batched key-value map: `Upsert` appends to a pending
  batch that `Get` already observes (the real trie updates its in-memory
  nodes immediately and queues the database writes), `Commit` merges the
  batch into the committed (persisted) map, and `RootHash` is modelled as the
  merged contents themselves — a deterministic, injective-on-contents stand-in
  for the Merkle root.  The persisted state of the factory is the committed
  part of both tries plus the three key-value cells.
* Errors that can only arise from the external key-value store or from
  malformed bech32 strings are outside the model; the errors the factory
  itself produces are kept.
-/

namespace Iotex

/-- Association-list lookup keyed by decidable equality (models a Go map read). -/
def alookup [DecidableEq κ] (k : κ) : List (κ × ν) → Option ν
  | [] => none
  | p :: ps => if p.1 = k then some p.2 else alookup k ps

/-- Association-list insert-or-replace (models a Go map write). -/
def aupsert [DecidableEq κ] (k : κ) (v : ν) : List (κ × ν) → List (κ × ν)
  | [] => [(k, v)]
  | p :: ps => if p.1 = k then (k, v) :: ps else p :: aupsert k v ps

/-- Lookup in which the latest binding wins (used for the trie's pending batch,
where repeated upserts of one key are appended in order). -/
def alast [DecidableEq κ] (l : List (κ × ν)) (k : κ) : Option ν :=
  alookup k l.reverse

/-- Merge a batch of upserts (in order) into a committed association list. -/
def mergeBatch [DecidableEq κ] (c : List (κ × ν)) (l : List (κ × ν)) : List (κ × ν) :=
  l.foldl (fun acc p => aupsert p.1 p.2 acc) c

/-- A batched trie, as consumed by the factory: spec §1 lists the trie as an
external library with `Get / Upsert / Commit / RootHash / EnableBatch`
semantics.  `committed` is what the underlying database holds; `pending` is
the enabled batch. -/
structure Trie (κ ν : Type) where
  committed : List (κ × ν)
  pending : List (κ × ν)
deriving DecidableEq

/-- Trie read: upserted values are visible before `Commit`. -/
def trieGet [DecidableEq κ] (t : Trie κ ν) (k : κ) : Option ν :=
  match alast t.pending k with
  | some v => some v
  | none => alookup k t.committed

/-- Trie upsert: queued in the batch. -/
def trieUpsert [DecidableEq κ] (t : Trie κ ν) (k : κ) (v : ν) : Trie κ ν :=
  { t with pending := t.pending ++ [(k, v)] }

/-- Trie batch commit: flush the batch into the committed map. -/
def trieCommit [DecidableEq κ] (t : Trie κ ν) : Trie κ ν :=
  { committed := mergeBatch t.committed t.pending, pending := [] }

/-- Modelled from the spec: the trie's Merkle root hash is outside this
repository; it is modelled as the full current contents of the trie, which is
a deterministic function of the contents, as §8 "Root determinism" requires. -/
def trieRootHash [DecidableEq κ] (t : Trie κ ν) : List (κ × ν) :=
  mergeBatch t.committed t.pending

/-- The uint64 modulus. -/
def w64 : Nat := 18446744073709551616

/-- Modelled from the spec: `byteutil.Uint64ToBytes` is outside this
repository; spec §6 fixes the encoding of heights as 8-byte big-endian. -/
def uint64ToBytes (n : Nat) : List Nat :=
  [n / 2 ^ 56 % 256, n / 2 ^ 48 % 256, n / 2 ^ 40 % 256, n / 2 ^ 32 % 256,
   n / 2 ^ 24 % 256, n / 2 ^ 16 % 256, n / 2 ^ 8 % 256, n % 256]

/-- Modelled from the spec: inverse decoding of the 8-byte big-endian height
(`byteutil.BytesToUint64`). -/
def bytesToUint64 (bs : List Nat) : Nat :=
  bs.foldl (fun a b => a * 256 + b) 0

/-- Sentinel for the 32-byte zero hash (`hash.ZeroHash32B`): absence. -/
def zeroHash32B : List Nat := List.replicate 32 0

/-- Modelled from the spec: `trie.EmptyRoot`, the canonical root of an empty
trie (spec §6 "Sentinels"); an opaque constant distinct from the zero hash. -/
def emptyRootHash : List Nat := 1 :: List.replicate 31 0

/-- Account record: the `State` struct of the `state` package (spec §3).
`balance` and `votingWeight` are `big.Int` in Go; `nonce` is `uint64`. -/
structure State where
  balance : Nat
  nonce : Nat
  votingWeight : Int
  votee : String
  isCandidate : Bool
  root : List Nat
  codeHash : List Nat
deriving DecidableEq

/-- The account record freshly allocated by `LoadOrCreateState`:
`&State{Balance: init, VotingWeight: big.NewInt(0)}`, all other fields zero. -/
def newState (init : Nat) : State :=
  { balance := init, nonce := 0, votingWeight := 0, votee := "",
    isCandidate := false, root := zeroHash32B, codeHash := zeroHash32B }

/-- Modelled from the spec: `State.isContract` lives in a file outside the
given sources.  Spec Invariant B: an account is a contract iff its storage
root is non-empty (fresh contracts get `EmptyRoot`, plain accounts keep the
zero hash, so non-empty means different from the zero sentinel). -/
def State.isContract (s : State) : Bool :=
  s.root ≠ zeroHash32B

/-- Candidate record (spec §3); `votes` is `big.Int`.  A record freshly
inserted by the vote applier carries zero votes until the commit pipeline
recomputes them. -/
structure Candidate where
  address : String
  pubKey : List Nat
  votes : Int
  creationHeight : Nat
  lastUpdateHeight : Nat
deriving DecidableEq

/-- A transfer as consumed by `handleTsf`.  `isContractCall` models
`tx.IsContract()` (the action package is outside the given sources; spec
§4.5 step 1: "Skip if transfer marks itself as a contract call"). -/
structure Transfer where
  isContractCall : Bool
  isCoinbase : Bool
  sender : String
  recipient : String
  amount : Nat
  nonce : Nat
deriving DecidableEq

/-- A vote as consumed by `handleVote` (voter, votee, self public key, nonce). -/
structure Vote where
  voterAddress : String
  voteeAddress : String
  selfPubkey : List Nat
  nonce : Nat
deriving DecidableEq

/-- An execution as consumed by the execution loop of `CommitStateChanges`. -/
structure Execution where
  executor : String
  nonce : Nat
deriving DecidableEq

/-- The errors the modelled factory code paths can surface.
`missingCandidate` stands for the nil-pointer panic that `updateCandidate`
would hit when an `IsCandidate` account has no entry in the candidate pool
(the code comments assume it "always exist in cachedCandidates"); modelling
it as an error only matters in that a commit reaching it does not succeed. -/
inductive FErr where
  | notEnoughBalance
  | accountNotExist
  | heightNotFound
  | missingCandidate
deriving DecidableEq

/-- The `factory` struct: caches, the two tries, and the three persisted
key-value cells (`AccountTrieRoot`, `CandidateTrieRoot`, `CurrentHeight`).
Contract handles are modelled by their self `State`; their storage tries live
in a disjoint namespace and never intersect the claims. -/
structure Factory where
  currentChainHeight : Nat
  numCandidates : Nat
  cachedCandidates : List (String × Candidate)
  cachedAccount : List (String × State)
  cachedContract : List (String × State)
  accountTrie : Trie String State
  candidateTrie : Trie (List Nat) (List Candidate)
  kvAccountRoot : Option (List (String × State))
  kvCandidateRoot : Option (List (List Nat × List Candidate))
  kvHeight : Option (List Nat)
deriving DecidableEq

/-- `LoadOrCreateState`: cached record, else trie read, else a fresh record
with the given initial balance; inserted into the cache either way. -/
def loadOrCreateState (sf : Factory) (addr : String) (init : Nat) : Factory × State :=
  match alookup addr sf.cachedAccount with
  | some s => (sf, s)
  | none =>
    match trieGet sf.accountTrie addr with
    | some s => ({ sf with cachedAccount := aupsert addr s sf.cachedAccount }, s)
    | none =>
      let s := newState init
      ({ sf with cachedAccount := aupsert addr s sf.cachedAccount }, s)

/-- Write an account record through to the cache (Go mutates the cached
`*State` in place; the model writes the updated record back explicitly). -/
def setAccount (sf : Factory) (addr : String) (s : State) : Factory :=
  { sf with cachedAccount := aupsert addr s sf.cachedAccount }

/-- The account view the appliers operate on: cache first, then trie. -/
def viewAccount (sf : Factory) (addr : String) : Option State :=
  match alookup addr sf.cachedAccount with
  | some s => some s
  | none => trieGet sf.accountTrie addr

/-- Total version of `viewAccount` (an absent account behaves like a fresh
zero record, which is exactly what `LoadOrCreateState` materializes). -/
def viewState (sf : Factory) (addr : String) : State :=
  (viewAccount sf addr).getD (newState 0)

/-- The nonce visible for an address. -/
def viewNonce (sf : Factory) (addr : String) : Nat :=
  (viewState sf addr).nonce

/-- `getState`: committed-view read used by `State`/`Balance`/`Nonce`;
`ErrAccountNotExist` when the trie has no entry. -/
def getStateF (sf : Factory) (addr : String) : Except FErr State :=
  match trieGet sf.accountTrie addr with
  | some s => .ok s
  | none => .error FErr.accountNotExist

/-- `getContract`: contract cache first, then the account trie; an existing
non-contract account or an absent account yields no contract.  On a hit from
the trie the handle is added to the contract cache. -/
def getContractF (sf : Factory) (addr : String) : Factory × Option State :=
  match alookup addr sf.cachedContract with
  | some c => (sf, some c)
  | none =>
    match trieGet sf.accountTrie addr with
    | none => (sf, none)
    | some s =>
      if s.isContract then
        ({ sf with cachedContract := aupsert addr s sf.cachedContract }, some s)
      else (sf, none)

/-- `CachedState`: contract self-state if a contract handle exists, else the
cached account, else a trie read that populates the cache on success.  An
address absent everywhere surfaces `ErrAccountNotExist`. -/
def cachedState (sf : Factory) (addr : String) : Factory × Except FErr State :=
  match getContractF sf addr with
  | (sf1, some c) => (sf1, .ok c)
  | (sf1, none) =>
    match alookup addr sf1.cachedAccount with
    | some s => (sf1, .ok s)
    | none =>
      match trieGet sf1.accountTrie addr with
      | some s => ({ sf1 with cachedAccount := aupsert addr s sf1.cachedAccount }, .ok s)
      | none => (sf1, .error FErr.accountNotExist)

/-- `Height`: decode the persisted `CurrentHeight` cell. -/
def heightOf (sf : Factory) : Except FErr Nat :=
  match sf.kvHeight with
  | none => .error FErr.heightNotFound
  | some bs => .ok (bytesToUint64 bs)

/-- The durable (persisted) part of a factory: the committed contents of both
tries and the three key-value cells. -/
def persistedOf (sf : Factory) :
    List (String × State) × List (List Nat × List Candidate) ×
    Option (List (String × State)) × Option (List (List Nat × List Candidate)) ×
    Option (List Nat) :=
  (sf.accountTrie.committed, sf.candidateTrie.committed,
   sf.kvAccountRoot, sf.kvCandidateRoot, sf.kvHeight)

/-- Modelled from the spec: the candidate total order of §3 —
votes descending, then creation height ascending, then address ascending.
(The `CandidateList` comparator lives in a file outside the given sources.) -/
def candLE (a b : Candidate) : Bool :=
  if a.votes = b.votes then
    if a.creationHeight = b.creationHeight then decide ¬ b.address < a.address
    else decide (a.creationHeight < b.creationHeight)
  else decide (b.votes < a.votes)

/-- Insert a candidate into a list sorted by `candLE`. -/
def insertCand (c : Candidate) : List Candidate → List Candidate
  | [] => [c]
  | d :: ds => if candLE c d then c :: d :: ds else d :: insertCand c ds

/-- Deterministic sort by the candidate total order (models `sort.Sort` on a
`CandidateList`, whose comparator is the total order above). -/
def sortCands : List Candidate → List Candidate
  | [] => []
  | c :: cs => insertCand c (sortCands cs)

/-- Sortedness by the candidate total order. -/
def SortedCands (l : List Candidate) : Prop :=
  List.Pairwise (fun a b => candLE a b = true) l

/-- Modelled from the spec: `MapToCandidates` (outside the given sources)
lists the values of the candidate map; the list order models one admissible
Go map iteration order. -/
def mapToCandidates (m : List (String × Candidate)) : List Candidate :=
  m.map Prod.snd

/-- Modelled from the spec: `CandidatesToMap` keys candidates by address. -/
def candidatesToMap (l : List Candidate) : List (String × Candidate) :=
  l.map fun c => (c.address, c)

/-- Modelled from the spec: `Serialize` (outside the given sources) produces
the canonical encoding of a candidate list; §4.1 requires it to sort by the
total order before encoding, and the encoding is injective, so the model
takes the sorted list itself as the canonical value. -/
def serializeCands (l : List Candidate) : List Candidate :=
  sortCands l

/-- `Candidates()`: the live pool, truncated and sorted only when it exceeds
`numCandidates` (the code returns the pool as iterated otherwise). -/
def candidatesOf (sf : Factory) : Nat × List Candidate :=
  let cs := mapToCandidates sf.cachedCandidates
  if cs.length ≤ sf.numCandidates then (sf.currentChainHeight, cs)
  else (sf.currentChainHeight, (sortCands cs).take sf.numCandidates)

/-- `CandidatesByHeight`: archived list at a height, truncated on read. -/
def candidatesByHeight (sf : Factory) (height : Nat) : Except FErr (List Candidate) :=
  match trieGet sf.candidateTrie (uint64ToBytes height) with
  | none => .error FErr.heightNotFound
  | some cl => .ok (if sf.numCandidates < cl.length then cl.take sf.numCandidates else cl)

/-- Run a fallible applier over a list, stopping at the first error and
returning the factory as mutated so far (Go returns the error immediately;
the in-memory mutations already made are kept). -/
def stepList (f : Factory → α → Factory × Option FErr) : Factory → List α → Factory × Option FErr
  | sf, [] => (sf, none)
  | sf, x :: xs =>
    let p := f sf x
    match p.2 with
    | some e => (p.1, some e)
    | none => stepList f p.1 xs

/-- Sender half of a transfer (`handleTsf`, non-coinbase branch): balance
check, balance deduction, nonce bump to the max, and deduction of the amount
from the votee's weight when the sender voted to somebody else. -/
def tsfSender (sf : Factory) (tx : Transfer) : Factory × Option FErr :=
  let p := loadOrCreateState sf tx.sender 0
  let s := p.2
  if s.balance < tx.amount then (p.1, some FErr.notEnoughBalance)
  else
    let s1 : State := { s with balance := s.balance - tx.amount,
                               nonce := if tx.nonce > s.nonce then tx.nonce else s.nonce }
    let sf2 := setAccount p.1 tx.sender s1
    if s.votee ≠ "" ∧ s.votee ≠ tx.sender then
      let q := loadOrCreateState sf2 s.votee 0
      (setAccount q.1 s.votee
        { q.2 with votingWeight := q.2.votingWeight - (tx.amount : Int) }, none)
    else (sf2, none)

/-- Recipient half of a transfer (`handleTsf`): balance credit, and credit of
the amount to the votee's weight when the recipient voted to somebody else. -/
def tsfRecipient (sf : Factory) (tx : Transfer) : Factory :=
  let p := loadOrCreateState sf tx.recipient 0
  let sf1 := setAccount p.1 tx.recipient { p.2 with balance := p.2.balance + tx.amount }
  if p.2.votee ≠ "" ∧ p.2.votee ≠ tx.recipient then
    let q := loadOrCreateState sf1 p.2.votee 0
    setAccount q.1 p.2.votee
      { q.2 with votingWeight := q.2.votingWeight + (tx.amount : Int) }
  else sf1

/-- One iteration of the `handleTsf` loop. -/
def applyTransfer (sf : Factory) (tx : Transfer) : Factory × Option FErr :=
  if tx.isContractCall then (sf, none)
  else if tx.isCoinbase then (tsfRecipient sf tx, none)
  else
    let p := tsfSender sf tx
    match p.2 with
    | some e => (p.1, some e)
    | none => (tsfRecipient p.1 tx, none)

/-- `handleTsf`. -/
def handleTsf (sf : Factory) (ts : List Transfer) : Factory × Option FErr :=
  stepList applyTransfer sf ts

/-- First phase of a vote (`handleVote` loop body): load the voter and bump
its nonce to the max of the current nonce and the vote's nonce. -/
def voteNonce (sf : Factory) (v : Vote) : Factory × State :=
  let p := loadOrCreateState sf v.voterAddress 0
  let vf0 : State := if v.nonce > p.2.nonce then { p.2 with nonce := v.nonce } else p.2
  (setAccount p.1 v.voterAddress vf0, vf0)

/-- Second phase of a vote: when the voter already voted to somebody else,
subtract the voter's whole balance from that votee's weight and clear the
voter's votee field. -/
def voteClearOld (sf : Factory) (v : Vote) (vf0 : State) : Factory × State :=
  if vf0.votee ≠ "" ∧ vf0.votee ≠ v.voterAddress then
    let q := loadOrCreateState sf vf0.votee 0
    let sf2 := setAccount q.1 vf0.votee
      { q.2 with votingWeight := q.2.votingWeight - (vf0.balance : Int) }
    let vf1 : State := { vf0 with votee := "" }
    (setAccount sf2 v.voterAddress vf1, vf1)
  else (sf, vf0)

/-- Third phase of a vote: the unvote / vote-other / self-vote case split. -/
def voteCase (sf : Factory) (blockHeight : Nat) (v : Vote) (vf : State) : Factory :=
  if v.voteeAddress = "" then
    setAccount sf v.voterAddress { vf with isCandidate := false }
  else
    let q := loadOrCreateState sf v.voteeAddress 0
    if v.voterAddress ≠ v.voteeAddress then
      let sf4 := setAccount q.1 v.voteeAddress
        { q.2 with votingWeight := q.2.votingWeight + (vf.balance : Int) }
      setAccount sf4 v.voterAddress { vf with votee := v.voteeAddress }
    else
      let sf4 := setAccount q.1 v.voterAddress
        { vf with votee := v.voterAddress, isCandidate := true }
      if (alookup v.voterAddress sf4.cachedCandidates).isSome then sf4
      else
        let newCand : Candidate :=
          { address := v.voterAddress, pubKey := v.selfPubkey, votes := 0,
            creationHeight := blockHeight, lastUpdateHeight := 0 }
        { sf4 with cachedCandidates := aupsert v.voterAddress newCand sf4.cachedCandidates }

/-- One iteration of the `handleVote` loop: nonce bump to the max; removal of
the voter's whole balance from a previous different votee plus clearing the
votee field; then the unvote / vote-other / self-vote case split. -/
def applyVote (sf : Factory) (blockHeight : Nat) (v : Vote) : Factory :=
  let p := voteNonce sf v
  let q := voteClearOld p.1 v p.2
  voteCase q.1 blockHeight v q.2

/-- `handleVote` (in the model the vote applier itself cannot fail: the only
Go error paths are external bech32 or storage failures). -/
def handleVote (sf : Factory) (blockHeight : Nat) (vs : List Vote) : Factory :=
  vs.foldl (fun acc v => applyVote acc blockHeight v) sf

/-- One iteration of the cached-account flush in `CommitStateChanges` step 3:
write the record to the account trie; drop non-candidates from the live pool;
recompute a candidate's votes as `voting_weight + (balance if self-voted)`.
`updateCandidate` dereferences the pool entry without a nil check, so a
missing entry (impossible per invariant D) is modelled as an aborting error. -/
def commitAccountsStep (blockHeight : Nat) (sf : Factory) (kv : String × State) :
    Factory × Option FErr :=
  let sfA := { sf with accountTrie := trieUpsert sf.accountTrie kv.1 kv.2 }
  if kv.2.isCandidate = false then
    ({ sfA with cachedCandidates := sfA.cachedCandidates.filter (fun p => p.1 ≠ kv.1) }, none)
  else
    let total : Int := kv.2.votingWeight + (if kv.2.votee = kv.1 then (kv.2.balance : Int) else 0)
    match alookup kv.1 sfA.cachedCandidates with
    | none => (sfA, some FErr.missingCandidate)
    | some c =>
      let c' : Candidate := { c with votes := total, lastUpdateHeight := blockHeight }
      ({ sfA with cachedCandidates := aupsert kv.1 c' sfA.cachedCandidates }, none)

/-- The cached-account flush loop. -/
def commitAccounts (sf : Factory) (blockHeight : Nat) (l : List (String × State)) :
    Factory × Option FErr :=
  stepList (commitAccountsStep blockHeight) sf l

/-- The cached-contract flush loop (step 4): each handle commits its disjoint
storage trie and writes its self state into the account trie. -/
def commitContracts (sf : Factory) (l : List (String × State)) : Factory :=
  l.foldl (fun acc p => { acc with accountTrie := trieUpsert acc.accountTrie p.1 p.2 }) sf

/-- One iteration of the execution loop (step 5): `uint64` increment of the
executor's nonce, then bump to the execution's nonce if larger; written both
to the cache (when cached) and to the trie.  An executor absent from cache
and trie surfaces `ErrAccountNotExist`. -/
def applyExec (sf : Factory) (e : Execution) : Factory × Option FErr :=
  match alookup e.executor sf.cachedAccount with
  | some st =>
    let n1 := (st.nonce + 1) % w64
    let st' : State := { st with nonce := if e.nonce > n1 then e.nonce else n1 }
    ({ sf with cachedAccount := aupsert e.executor st' sf.cachedAccount,
               accountTrie := trieUpsert sf.accountTrie e.executor st' }, none)
  | none =>
    match trieGet sf.accountTrie e.executor with
    | none => (sf, some FErr.accountNotExist)
    | some st =>
      let n1 := (st.nonce + 1) % w64
      let st' : State := { st with nonce := if e.nonce > n1 then e.nonce else n1 }
      ({ sf with accountTrie := trieUpsert sf.accountTrie e.executor st' }, none)

/-- The execution loop. -/
def handleExecs (sf : Factory) (es : List Execution) : Factory × Option FErr :=
  stepList applyExec sf es

/-- Steps 7–9 of the commit pipeline: archive the sorted live pool under the
block height, batch-commit the candidate trie, persist both roots, set and
persist the new height. -/
def commitTail (sf : Factory) (blockHeight : Nat) : Factory × Option FErr :=
  let cands := sortCands (mapToCandidates sf.cachedCandidates)
  let ct2 := trieCommit (trieUpsert sf.candidateTrie (uint64ToBytes blockHeight)
    (serializeCands cands))
  ({ sf with candidateTrie := ct2,
             kvAccountRoot := some (trieRootHash sf.accountTrie),
             kvCandidateRoot := some (trieRootHash ct2),
             currentChainHeight := blockHeight,
             kvHeight := some (uint64ToBytes blockHeight) }, none)

/-- Steps 2–9 of `CommitStateChanges` after candidate recovery. -/
def commitPhases (sf : Factory) (blockHeight : Nat)
    (ts : List Transfer) (vs : List Vote) (es : List Execution) : Factory × Option FErr :=
  let pt := handleTsf sf ts
  match pt.2 with
  | some e => (pt.1, some e)
  | none =>
    let sf2 := handleVote pt.1 blockHeight vs
    let pa := commitAccounts sf2 blockHeight sf2.cachedAccount
    match pa.2 with
    | some e => (pa.1, some e)
    | none =>
      let sf4 := commitContracts pa.1 pa.1.cachedContract
      let pe := handleExecs sf4 es
      match pe.2 with
      | some e => (pe.1, some e)
      | none =>
        commitTail { pe.1 with accountTrie := trieCommit pe.1.accountTrie } blockHeight

/-- `CommitStateChanges`: candidate recovery on restart, then the pipeline. -/
def commitStateChanges (sf : Factory) (blockHeight : Nat)
    (ts : List Transfer) (vs : List Vote) (es : List Execution) : Factory × Option FErr :=
  if blockHeight > 0 ∧ sf.cachedCandidates = [] then
    match trieGet sf.candidateTrie (uint64ToBytes (blockHeight - 1)) with
    | none => (sf, some FErr.heightNotFound)
    | some cl => commitPhases { sf with cachedCandidates := candidatesToMap cl } blockHeight ts vs es
  else commitPhases sf blockHeight ts vs es

/-! ## Basic lemmas about the map and trie model -/

/-- First-some choice on options (the shape of cache-then-trie reads). -/
def oor (a b : Option ν) : Option ν :=
  match a with
  | some v => some v
  | none => b

theorem oor_some (v : ν) (b : Option ν) : oor (some v) b = some v := rfl

theorem oor_none (b : Option ν) : oor (none : Option ν) b = b := rfl

theorem alookup_aupsert [DecidableEq κ] (k : κ) (v : ν) (l : List (κ × ν)) (k' : κ) :
    alookup k' (aupsert k v l) = if k' = k then some v else alookup k' l := by
  induction l with
  | nil =>
    by_cases h : k' = k
    · subst h; simp [aupsert, alookup]
    · have h2 : ¬ k = k' := fun hc => h hc.symm
      simp [aupsert, alookup, h, h2]
  | cons p ps ih =>
    by_cases h : p.1 = k
    · subst h
      by_cases h' : k' = p.1
      · subst h'; simp [aupsert, alookup]
      · have h2 : ¬ p.1 = k' := fun hc => h' hc.symm
        simp [aupsert, alookup, h', h2]
    · by_cases h' : p.1 = k'
      · subst h'
        simp [aupsert, alookup, h]
      · simp [aupsert, alookup, h, h', ih]

theorem alookup_append [DecidableEq κ] (k : κ) (l₁ l₂ : List (κ × ν)) :
    alookup k (l₁ ++ l₂) = oor (alookup k l₁) (alookup k l₂) := by
  induction l₁ with
  | nil => simp [alookup, oor]
  | cons p ps ih =>
    by_cases h : p.1 = k <;> simp [alookup, h, ih, oor]

theorem alast_append_single [DecidableEq κ] (l : List (κ × ν)) (k : κ) (v : ν) (k' : κ) :
    alast (l ++ [(k, v)]) k' = if k' = k then some v else alast l k' := by
  unfold alast
  rw [List.reverse_append]
  simp only [List.reverse_cons, List.reverse_nil, List.nil_append, List.singleton_append]
  by_cases h : k = k'
  · subst h; simp [alookup]
  · have : ¬ k' = k := fun hc => h hc.symm
    simp [alookup, h, this]

theorem alookup_mergeBatch [DecidableEq κ] (c l : List (κ × ν)) (k : κ) :
    alookup k (mergeBatch c l) = oor (alast l k) (alookup k c) := by
  induction l generalizing c with
  | nil => simp [mergeBatch, alast, alookup, oor]
  | cons p ps ih =>
    have hstep : mergeBatch c (p :: ps) = mergeBatch (aupsert p.1 p.2 c) ps := rfl
    rw [hstep, ih]
    have halast : alast (p :: ps) k = oor (alast ps k) (if p.1 = k then some p.2 else none) := by
      unfold alast
      simp only [List.reverse_cons]
      rw [alookup_append]
      simp [alookup]
    rw [halast, alookup_aupsert]
    cases hps : alast ps k with
    | some v => simp [oor]
    | none =>
      by_cases h : k = p.1
      · subst h; simp [oor]
      · have : ¬ p.1 = k := fun hc => h hc.symm
        simp [oor, h, this]

theorem trieGet_upsert [DecidableEq κ] (t : Trie κ ν) (k : κ) (v : ν) (k' : κ) :
    trieGet (trieUpsert t k v) k' = if k' = k then some v else trieGet t k' := by
  unfold trieGet trieUpsert
  simp only []
  rw [alast_append_single]
  by_cases h : k' = k
  · simp [h]
  · simp [h]

theorem alast_nil [DecidableEq κ] (k : κ) : alast ([] : List (κ × ν)) k = none := rfl

theorem trieGet_commit [DecidableEq κ] (t : Trie κ ν) (k : κ) :
    trieGet (trieCommit t) k = trieGet t k := by
  unfold trieGet trieCommit
  simp only [alast_nil]
  rw [alookup_mergeBatch]
  cases h : alast t.pending k <;> simp [oor, h]

theorem trieCommit_committed [DecidableEq κ] (t : Trie κ ν) :
    (trieCommit t).committed = trieRootHash t := rfl

/-! ## Factory view lemmas -/

theorem setAccount_viewState (sf : Factory) (k : String) (s : State) (a : String) :
    viewState (setAccount sf k s) a = if a = k then s else viewState sf a := by
  unfold viewState viewAccount setAccount
  simp only [alookup_aupsert]
  by_cases h : a = k
  · simp [h]
  · simp [h]

theorem loadOrCreateState_viewState (sf : Factory) (k : String) (a : String) :
    viewState (loadOrCreateState sf k 0).1 a = viewState sf a := by
  unfold loadOrCreateState
  cases hc : alookup k sf.cachedAccount with
  | some s => rfl
  | none =>
    cases ht : trieGet sf.accountTrie k with
    | some s =>
      unfold viewState viewAccount
      simp only [alookup_aupsert]
      by_cases h : a = k
      · subst h; simp [hc, ht]
      · simp [h]
    | none =>
      unfold viewState viewAccount
      simp only [alookup_aupsert]
      by_cases h : a = k
      · subst h; simp [hc, ht]
      · simp [h]

theorem loadOrCreateState_snd (sf : Factory) (k : String) :
    (loadOrCreateState sf k 0).2 = viewState sf k := by
  unfold loadOrCreateState viewState viewAccount
  cases hc : alookup k sf.cachedAccount with
  | some s => simp
  | none => cases ht : trieGet sf.accountTrie k <;> simp [hc, ht]

/-! ## Preservation of the durable state and the contract cache

The appliers and the pre-commit phases only touch the account cache, the
candidate map and the tries' pending batches; the committed trie contents,
the key-value cells and the contract cache are untouched until the batch
commits of steps 6–8.  `duraOf` bundles exactly those components. -/

def duraOf (sf : Factory) :
    (List (String × State) × List (List Nat × List Candidate) ×
     Option (List (String × State)) × Option (List (List Nat × List Candidate)) ×
     Option (List Nat)) × List (String × State) :=
  (persistedOf sf, sf.cachedContract)

theorem duraOf_setAccount (sf : Factory) (k : String) (s : State) :
    duraOf (setAccount sf k s) = duraOf sf := rfl

theorem duraOf_loadOrCreateState (sf : Factory) (k : String) (i : Nat) :
    duraOf (loadOrCreateState sf k i).1 = duraOf sf := by
  unfold loadOrCreateState
  cases alookup k sf.cachedAccount
  · cases trieGet sf.accountTrie k <;> rfl
  · rfl

theorem duraOf_tsfSender (sf : Factory) (tx : Transfer) :
    duraOf (tsfSender sf tx).1 = duraOf sf := by
  unfold tsfSender
  dsimp only
  split
  · exact duraOf_loadOrCreateState sf tx.sender 0
  · split
    · rw [duraOf_setAccount, duraOf_loadOrCreateState, duraOf_setAccount,
        duraOf_loadOrCreateState]
    · rw [duraOf_setAccount, duraOf_loadOrCreateState]

theorem duraOf_tsfRecipient (sf : Factory) (tx : Transfer) :
    duraOf (tsfRecipient sf tx) = duraOf sf := by
  unfold tsfRecipient
  dsimp only
  split
  · rw [duraOf_setAccount, duraOf_loadOrCreateState, duraOf_setAccount,
      duraOf_loadOrCreateState]
  · rw [duraOf_setAccount, duraOf_loadOrCreateState]

theorem duraOf_applyTransfer (sf : Factory) (tx : Transfer) :
    duraOf (applyTransfer sf tx).1 = duraOf sf := by
  unfold applyTransfer
  dsimp only
  split
  · rfl
  · split
    · exact duraOf_tsfRecipient sf tx
    · cases h : (tsfSender sf tx).2 with
      | some e => simp only [h]; exact duraOf_tsfSender sf tx
      | none => simp only [h]; rw [duraOf_tsfRecipient]; exact duraOf_tsfSender sf tx

theorem duraOf_updateCands (a : Factory) (c : List (String × Candidate)) :
    duraOf { a with cachedCandidates := c } = duraOf a := rfl

theorem duraOf_voteNonce (sf : Factory) (v : Vote) :
    duraOf (voteNonce sf v).1 = duraOf sf := by
  unfold voteNonce
  dsimp only
  rw [duraOf_setAccount, duraOf_loadOrCreateState]

theorem duraOf_voteClearOld (sf : Factory) (v : Vote) (vf0 : State) :
    duraOf (voteClearOld sf v vf0).1 = duraOf sf := by
  unfold voteClearOld
  dsimp only
  split
  · rw [duraOf_setAccount, duraOf_setAccount, duraOf_loadOrCreateState]
  · rfl

theorem duraOf_voteCase (sf : Factory) (blockHeight : Nat) (v : Vote) (vf : State) :
    duraOf (voteCase sf blockHeight v vf) = duraOf sf := by
  unfold voteCase
  dsimp only
  repeat' split
  all_goals
    simp only [duraOf_updateCands, duraOf_setAccount, duraOf_loadOrCreateState]

theorem duraOf_applyVote (sf : Factory) (blockHeight : Nat) (v : Vote) :
    duraOf (applyVote sf blockHeight v) = duraOf sf := by
  unfold applyVote
  dsimp only
  rw [duraOf_voteCase, duraOf_voteClearOld, duraOf_voteNonce]

theorem duraOf_commitAccountsStep (blockHeight : Nat) (sf : Factory) (kv : String × State) :
    duraOf (commitAccountsStep blockHeight sf kv).1 = duraOf sf := by
  unfold commitAccountsStep
  dsimp only
  split
  · rfl
  · split <;> rfl

theorem duraOf_applyExec (sf : Factory) (e : Execution) :
    duraOf (applyExec sf e).1 = duraOf sf := by
  unfold applyExec
  split
  · rfl
  · split <;> rfl

/-- A factory invariant preserved by an applier step is preserved by the loop
(also when the loop stops early at an error). -/
theorem stepList_invar {β : Type} (g : Factory → β) (f : Factory → α → Factory × Option FErr)
    (hf : ∀ sf x, g (f sf x).1 = g sf) (sf : Factory) (l : List α) :
    g (stepList f sf l).1 = g sf := by
  induction l generalizing sf with
  | nil => rfl
  | cons x xs ih =>
    unfold stepList
    dsimp only
    cases h : (f sf x).2 with
    | some e => simpa using hf sf x
    | none => rw [ih]; exact hf sf x

/-- A factory invariant preserved by a pure step is preserved by a fold. -/
theorem foldl_invar {β : Type} (g : Factory → β) (f : Factory → α → Factory)
    (hf : ∀ sf x, g (f sf x) = g sf) (sf : Factory) (l : List α) :
    g (l.foldl f sf) = g sf := by
  induction l generalizing sf with
  | nil => rfl
  | cons x xs ih => rw [List.foldl_cons, ih, hf]

theorem duraOf_handleTsf (sf : Factory) (ts : List Transfer) :
    duraOf (handleTsf sf ts).1 = duraOf sf :=
  stepList_invar duraOf applyTransfer duraOf_applyTransfer sf ts

theorem duraOf_handleVote (sf : Factory) (blockHeight : Nat) (vs : List Vote) :
    duraOf (handleVote sf blockHeight vs) = duraOf sf :=
  foldl_invar duraOf _ (fun sf' v => duraOf_applyVote sf' blockHeight v) sf vs

theorem duraOf_commitAccounts (sf : Factory) (blockHeight : Nat) (l : List (String × State)) :
    duraOf (commitAccounts sf blockHeight l).1 = duraOf sf :=
  stepList_invar duraOf _ (duraOf_commitAccountsStep blockHeight) sf l

theorem persistedOf_commitContracts (sf : Factory) (l : List (String × State)) :
    persistedOf (commitContracts sf l) = persistedOf sf := by
  induction l generalizing sf with
  | nil => rfl
  | cons p ps ih =>
    show persistedOf
      (commitContracts { sf with accountTrie := trieUpsert sf.accountTrie p.1 p.2 } ps) =
      persistedOf sf
    rw [ih]
    rfl

theorem duraOf_handleExecs (sf : Factory) (es : List Execution) :
    duraOf (handleExecs sf es).1 = duraOf sf :=
  stepList_invar duraOf applyExec duraOf_applyExec sf es

theorem persistedOf_of_duraOf {a b : Factory} (h : duraOf a = duraOf b) :
    persistedOf a = persistedOf b := congrArg Prod.fst h

/-- Any abort of the pipeline happens before the batch commits and the root
and height writes, so it leaves the durable state untouched. -/
theorem persistedOf_commitPhases_error (sf : Factory) (blockHeight : Nat)
    (ts : List Transfer) (vs : List Vote) (es : List Execution) (e : FErr)
    (hres : (commitPhases sf blockHeight ts vs es).2 = some e) :
    persistedOf (commitPhases sf blockHeight ts vs es).1 = persistedOf sf := by
  unfold commitPhases at hres ⊢
  dsimp only at hres ⊢
  cases h1 : (handleTsf sf ts).2 with
  | some e1 =>
    simp only [h1]
    exact persistedOf_of_duraOf (duraOf_handleTsf sf ts)
  | none =>
    simp only [h1] at hres ⊢
    cases h2 : (commitAccounts (handleVote (handleTsf sf ts).1 blockHeight vs) blockHeight
        (handleVote (handleTsf sf ts).1 blockHeight vs).cachedAccount).2 with
    | some e2 =>
      simp only [h2]
      calc persistedOf (commitAccounts (handleVote (handleTsf sf ts).1 blockHeight vs) blockHeight
              (handleVote (handleTsf sf ts).1 blockHeight vs).cachedAccount).1
          = persistedOf (handleVote (handleTsf sf ts).1 blockHeight vs) :=
            persistedOf_of_duraOf (duraOf_commitAccounts _ _ _)
        _ = persistedOf (handleTsf sf ts).1 :=
            persistedOf_of_duraOf (duraOf_handleVote _ _ _)
        _ = persistedOf sf := persistedOf_of_duraOf (duraOf_handleTsf sf ts)
    | none =>
      simp only [h2] at hres ⊢
      cases h3 : (handleExecs (commitContracts
          (commitAccounts (handleVote (handleTsf sf ts).1 blockHeight vs) blockHeight
            (handleVote (handleTsf sf ts).1 blockHeight vs).cachedAccount).1
          (commitAccounts (handleVote (handleTsf sf ts).1 blockHeight vs) blockHeight
            (handleVote (handleTsf sf ts).1 blockHeight vs).cachedAccount).1.cachedContract) es).2 with
      | some e3 =>
        simp only [h3]
        calc persistedOf (handleExecs (commitContracts
                (commitAccounts (handleVote (handleTsf sf ts).1 blockHeight vs) blockHeight
                  (handleVote (handleTsf sf ts).1 blockHeight vs).cachedAccount).1
                (commitAccounts (handleVote (handleTsf sf ts).1 blockHeight vs) blockHeight
                  (handleVote (handleTsf sf ts).1 blockHeight vs).cachedAccount).1.cachedContract) es).1
            = persistedOf (commitContracts
                (commitAccounts (handleVote (handleTsf sf ts).1 blockHeight vs) blockHeight
                  (handleVote (handleTsf sf ts).1 blockHeight vs).cachedAccount).1
                (commitAccounts (handleVote (handleTsf sf ts).1 blockHeight vs) blockHeight
                  (handleVote (handleTsf sf ts).1 blockHeight vs).cachedAccount).1.cachedContract) :=
              persistedOf_of_duraOf (duraOf_handleExecs _ _)
          _ = persistedOf (commitAccounts (handleVote (handleTsf sf ts).1 blockHeight vs) blockHeight
                (handleVote (handleTsf sf ts).1 blockHeight vs).cachedAccount).1 :=
              persistedOf_commitContracts _ _
          _ = persistedOf (handleVote (handleTsf sf ts).1 blockHeight vs) :=
              persistedOf_of_duraOf (duraOf_commitAccounts _ _ _)
          _ = persistedOf (handleTsf sf ts).1 :=
              persistedOf_of_duraOf (duraOf_handleVote _ _ _)
          _ = persistedOf sf := persistedOf_of_duraOf (duraOf_handleTsf sf ts)
      | none =>
        simp only [h3] at hres
        simp [commitTail] at hres

/-! ## Success shape of the commit pipeline -/

theorem bytes_roundtrip (n : Nat) (hn : n < w64) : bytesToUint64 (uint64ToBytes n) = n := by
  unfold bytesToUint64 uint64ToBytes
  unfold w64 at hn
  simp only [List.foldl]
  omega

theorem commitTail_snd (sfm : Factory) (h : Nat) : (commitTail sfm h).2 = none := rfl

theorem commitTail_kvAccountRoot (sfm : Factory) (h : Nat) :
    (commitTail sfm h).1.kvAccountRoot = some (trieRootHash sfm.accountTrie) := rfl

theorem commitTail_accountTrie (sfm : Factory) (h : Nat) :
    (commitTail sfm h).1.accountTrie = sfm.accountTrie := rfl

theorem commitTail_kvHeight (sfm : Factory) (h : Nat) :
    (commitTail sfm h).1.kvHeight = some (uint64ToBytes h) := rfl

theorem commitTail_cachedCandidates (sfm : Factory) (h : Nat) :
    (commitTail sfm h).1.cachedCandidates = sfm.cachedCandidates := rfl

theorem commitTail_candidateTrie (sfm : Factory) (h : Nat) :
    (commitTail sfm h).1.candidateTrie =
      trieCommit (trieUpsert sfm.candidateTrie (uint64ToBytes h)
        (serializeCands (sortCands (mapToCandidates sfm.cachedCandidates)))) := rfl

/-- A successful run of steps 2–9 ends in `commitTail` on some mid-state. -/
theorem commitPhases_success (sf : Factory) (blockHeight : Nat)
    (ts : List Transfer) (vs : List Vote) (es : List Execution)
    (hres : (commitPhases sf blockHeight ts vs es).2 = none) :
    ∃ sfm, commitPhases sf blockHeight ts vs es = commitTail sfm blockHeight := by
  unfold commitPhases at hres ⊢
  dsimp only at hres ⊢
  cases h1 : (handleTsf sf ts).2 with
  | some e1 => rw [h1] at hres; simp at hres
  | none =>
    rw [h1] at hres
    dsimp only at hres ⊢
    cases h2 : (commitAccounts (handleVote (handleTsf sf ts).1 blockHeight vs) blockHeight
        (handleVote (handleTsf sf ts).1 blockHeight vs).cachedAccount).2 with
    | some e2 => rw [h2] at hres; simp at hres
    | none =>
      rw [h2] at hres
      dsimp only at hres ⊢
      cases h3 : (handleExecs (commitContracts
          (commitAccounts (handleVote (handleTsf sf ts).1 blockHeight vs) blockHeight
            (handleVote (handleTsf sf ts).1 blockHeight vs).cachedAccount).1
          (commitAccounts (handleVote (handleTsf sf ts).1 blockHeight vs) blockHeight
            (handleVote (handleTsf sf ts).1 blockHeight vs).cachedAccount).1.cachedContract) es).2 with
      | some e3 => rw [h3] at hres; simp at hres
      | none =>
        exact ⟨_, rfl⟩

/-- A successful `CommitStateChanges` ends in `commitTail` on some mid-state. -/
theorem commit_success (sf : Factory) (blockHeight : Nat)
    (ts : List Transfer) (vs : List Vote) (es : List Execution)
    (hres : (commitStateChanges sf blockHeight ts vs es).2 = none) :
    ∃ sfm, commitStateChanges sf blockHeight ts vs es = commitTail sfm blockHeight := by
  unfold commitStateChanges at hres ⊢
  by_cases hrec : blockHeight > 0 ∧ sf.cachedCandidates = []
  · rw [if_pos hrec] at hres ⊢
    cases hget : trieGet sf.candidateTrie (uint64ToBytes (blockHeight - 1)) with
    | none => rw [hget] at hres; simp at hres
    | some cl => rw [hget] at hres; exact commitPhases_success _ _ _ _ _ hres
  · rw [if_neg hrec] at hres ⊢
    exact commitPhases_success _ _ _ _ _ hres

/-- After a successful commit the persisted `CurrentHeight` cell decodes to
the block height that was passed in. -/
theorem commit_success_height (sf : Factory) (blockHeight : Nat)
    (ts : List Transfer) (vs : List Vote) (es : List Execution)
    (hb : blockHeight < w64)
    (hres : (commitStateChanges sf blockHeight ts vs es).2 = none) :
    heightOf (commitStateChanges sf blockHeight ts vs es).1 = .ok blockHeight := by
  obtain ⟨sfm, heq⟩ := commit_success sf blockHeight ts vs es hres
  rw [heq]
  unfold heightOf
  rw [commitTail_kvHeight]
  dsimp only
  rw [bytes_roundtrip blockHeight hb]

/-- A shared concrete base factory for the closed witnesses below. -/
def mkFactory (cands : List (String × Candidate)) (cache : List (String × State))
    (trie : List (String × State)) (kvh : Option (List Nat)) (num cur : Nat) : Factory :=
  { currentChainHeight := cur, numCandidates := num, cachedCandidates := cands,
    cachedAccount := cache, cachedContract := [],
    accountTrie := { committed := trie, pending := [] },
    candidateTrie := { committed := [], pending := [] },
    kvAccountRoot := none, kvCandidateRoot := none, kvHeight := kvh }

/-- A concrete pool entry used by witnesses to skip candidate recovery. -/
def zCand : Candidate :=
  { address := "z", pubKey := [], votes := 5, creationHeight := 0, lastUpdateHeight := 0 }

/-- Claim C3: after every successful `CommitStateChanges(block_height, ...)`,
`RootHash()` equals the value persisted under the `AccountTrieRoot` key and
`Height()` equals `block_height` as persisted under `CurrentHeight`. -/
theorem commit_persists_root_and_height (sf : Factory) (blockHeight : Nat)
    (ts : List Transfer) (vs : List Vote) (es : List Execution)
    (hb : blockHeight < w64)
    (hres : (commitStateChanges sf blockHeight ts vs es).2 = none) :
    (commitStateChanges sf blockHeight ts vs es).1.kvAccountRoot =
      some (trieRootHash (commitStateChanges sf blockHeight ts vs es).1.accountTrie) ∧
    heightOf (commitStateChanges sf blockHeight ts vs es).1 = .ok blockHeight := by
  refine ⟨?_, commit_success_height sf blockHeight ts vs es hb hres⟩
  obtain ⟨sfm, heq⟩ := commit_success sf blockHeight ts vs es hres
  rw [heq, commitTail_kvAccountRoot, commitTail_accountTrie]

def c3sf : Factory := mkFactory [("z", zCand)] [("a", newState 7)] [] none 2 0

theorem commit_persists_root_and_height_witness :
    (commitStateChanges c3sf 1 [] [] []).2 = none ∧
    ((commitStateChanges c3sf 1 [] [] []).1.kvAccountRoot =
       some (trieRootHash (commitStateChanges c3sf 1 [] [] []).1.accountTrie) ∧
     heightOf (commitStateChanges c3sf 1 [] [] []).1 = .ok 1) :=
  ⟨by decide, commit_persists_root_and_height c3sf 1 [] [] [] (by decide) (by decide)⟩

/-- Claim C4: a transfer failing with `InsufficientBalance` aborts
`CommitStateChanges` before any batch commit or key-value write, so the
persisted tries, roots and height are unchanged. -/
theorem insufficient_balance_aborts (sf : Factory) (blockHeight : Nat)
    (ts : List Transfer) (vs : List Vote) (es : List Execution)
    (hres : (commitStateChanges sf blockHeight ts vs es).2 = some FErr.notEnoughBalance) :
    persistedOf (commitStateChanges sf blockHeight ts vs es).1 = persistedOf sf := by
  unfold commitStateChanges at hres ⊢
  by_cases hrec : blockHeight > 0 ∧ sf.cachedCandidates = []
  · rw [if_pos hrec] at hres ⊢
    cases hget : trieGet sf.candidateTrie (uint64ToBytes (blockHeight - 1)) with
    | none => rw [hget] at hres
    | some cl => rw [hget] at hres; exact persistedOf_commitPhases_error _ _ _ _ _ _ hres
  · rw [if_neg hrec] at hres ⊢
    exact persistedOf_commitPhases_error _ _ _ _ _ _ hres

def c4sf : Factory := mkFactory [("z", zCand)] [] [("a", newState 10)] none 2 0

def c4tx : Transfer :=
  { isContractCall := false, isCoinbase := false, sender := "a", recipient := "b",
    amount := 20, nonce := 1 }

theorem insufficient_balance_aborts_witness :
    (commitStateChanges c4sf 1 [c4tx] [] []).2 = some FErr.notEnoughBalance ∧
    persistedOf (commitStateChanges c4sf 1 [c4tx] [] []).1 = persistedOf c4sf :=
  ⟨by decide, insufficient_balance_aborts c4sf 1 [c4tx] [] [] (by decide)⟩

/-- Claim C5 counterexample: `CommitStateChanges` performs no height check.
A factory whose persisted height is 5 accepts a commit at height 3: the call
succeeds and the persisted height becomes 3, although 3 is not 5 + 1. -/
def c5sf : Factory := mkFactory [("z", zCand)] [] [] (some (uint64ToBytes 5)) 2 5

theorem height_not_checked_counterexample :
    heightOf c5sf = .ok 5 ∧
    (commitStateChanges c5sf 3 [] [] []).2 = none ∧
    heightOf (commitStateChanges c5sf 3 [] [] []).1 = .ok 3 ∧
    (3 : Nat) ≠ 5 + 1 := by
  refine ⟨rfl, by decide, rfl, by decide⟩

/-- Claim C5 (amended): every successful commit persists exactly the height
argument it was given; no relation between successive heights is enforced, so
the height increases by one only when callers pass successive heights. -/
theorem commit_height_follows_argument (sf : Factory) (h1 h2 : Nat)
    (ts1 : List Transfer) (vs1 : List Vote) (es1 : List Execution)
    (ts2 : List Transfer) (vs2 : List Vote) (es2 : List Execution)
    (hb : h2 < w64)
    (hs2 : (commitStateChanges (commitStateChanges sf h1 ts1 vs1 es1).1 h2 ts2 vs2 es2).2 = none) :
    heightOf (commitStateChanges (commitStateChanges sf h1 ts1 vs1 es1).1 h2 ts2 vs2 es2).1 =
      .ok h2 :=
  commit_success_height _ h2 ts2 vs2 es2 hb hs2

theorem commit_height_follows_argument_witness :
    (commitStateChanges (commitStateChanges c5sf 5 [] [] []).1 3 [] [] []).2 = none ∧
    heightOf (commitStateChanges (commitStateChanges c5sf 5 [] [] []).1 3 [] [] []).1 = .ok 3 :=
  ⟨by decide, commit_height_follows_argument c5sf 5 3 [] [] [] [] [] [] (by decide) (by decide)⟩

/-- Claim C8 counterexample: on a factory whose caches and account trie are
all empty, `CachedState` of an unknown address does surface
`ErrAccountNotExist` instead of materializing a record. -/
theorem cachedstate_notfound_counterexample :
    (cachedState (mkFactory [] [] [] none 2 0) "a").2 = .error FErr.accountNotExist ∧
    (cachedState (mkFactory [] [] [] none 2 0) "a").1 = mkFactory [] [] [] none 2 0 :=
  ⟨rfl, rfl⟩

/-- Claim C8 (amended): for an address absent from the contract cache, the
account cache and the account trie, `LoadOrCreateState` materializes a fresh
record (returning it and inserting it into the cache, never surfacing
`AccountNotFound`), while `CachedState` does not materialize anything: it
propagates `ErrAccountNotExist` and leaves the factory unchanged. -/
theorem load_or_create_materializes (sf : Factory) (addr : String) (init : Nat)
    (hc : alookup addr sf.cachedContract = none)
    (ha : alookup addr sf.cachedAccount = none)
    (ht : trieGet sf.accountTrie addr = none) :
    (loadOrCreateState sf addr init).2 = newState init ∧
    alookup addr (loadOrCreateState sf addr init).1.cachedAccount = some (newState init) ∧
    (cachedState sf addr).2 = .error FErr.accountNotExist ∧
    (cachedState sf addr).1 = sf := by
  refine ⟨?_, ?_, ?_, ?_⟩
  · simp [loadOrCreateState, ha, ht]
  · simp [loadOrCreateState, ha, ht, alookup_aupsert]
  · simp [cachedState, getContractF, hc, ha, ht]
  · simp [cachedState, getContractF, hc, ha, ht]

theorem load_or_create_materializes_witness :
    (loadOrCreateState (mkFactory [] [] [] none 2 0) "b" 5).2 = newState 5 ∧
    alookup "b" (loadOrCreateState (mkFactory [] [] [] none 2 0) "b" 5).1.cachedAccount =
      some (newState 5) ∧
    (cachedState (mkFactory [] [] [] none 2 0) "b").2 = .error FErr.accountNotExist ∧
    (cachedState (mkFactory [] [] [] none 2 0) "b").1 = mkFactory [] [] [] none 2 0 :=
  load_or_create_materializes (mkFactory [] [] [] none 2 0) "b" 5 rfl rfl rfl

theorem if_gt_max (a b : Nat) : (if b > a then b else a) = max a b := by
  split <;> omega

/-- Claim C9: for every execution, the executor's nonce is incremented by one
(as a `uint64`) and then raised to the execution's nonce when that is larger;
in particular, when the execution's nonce is the pre-application nonce plus
one, the result is exactly the pre-application nonce plus one. -/
theorem execution_nonce_increment (sf : Factory) (e : Execution) (st : State)
    (hv : viewAccount sf e.executor = some st) :
    (applyExec sf e).2 = none ∧
    viewNonce (applyExec sf e).1 e.executor = max ((st.nonce + 1) % w64) e.nonce ∧
    (st.nonce + 1 < w64 → e.nonce = st.nonce + 1 →
      viewNonce (applyExec sf e).1 e.executor = st.nonce + 1) := by
  have hmain : (applyExec sf e).2 = none ∧
      viewNonce (applyExec sf e).1 e.executor = max ((st.nonce + 1) % w64) e.nonce := by
    unfold viewAccount at hv
    unfold applyExec
    cases hc : alookup e.executor sf.cachedAccount with
    | some st0 =>
      rw [hc] at hv
      have hst : st0 = st := by injection hv
      subst hst
      refine ⟨rfl, ?_⟩
      unfold viewNonce viewState viewAccount
      dsimp only
      rw [alookup_aupsert]
      simp [if_gt_max]
    | none =>
      rw [hc] at hv
      dsimp only at hv ⊢
      rw [hv]
      refine ⟨rfl, ?_⟩
      unfold viewNonce viewState viewAccount
      dsimp only
      rw [hc, trieGet_upsert]
      simp [if_gt_max]
  refine ⟨hmain.1, hmain.2, ?_⟩
  intro h1 h2
  rw [hmain.2, Nat.mod_eq_of_lt h1, h2, Nat.max_self]

/-- Full characterization of the sender half of a transfer on the
cache-then-trie account view, given sufficient balance. -/
theorem tsfSender_viewState (sf : Factory) (tx : Transfer)
    (hle : ¬ (viewState sf tx.sender).balance < tx.amount) :
    (tsfSender sf tx).2 = none ∧
    ∀ a, viewState (tsfSender sf tx).1 a =
      if a = tx.sender then
        { viewState sf tx.sender with
            balance := (viewState sf tx.sender).balance - tx.amount,
            nonce := if tx.nonce > (viewState sf tx.sender).nonce then tx.nonce
                     else (viewState sf tx.sender).nonce }
      else if ((viewState sf tx.sender).votee ≠ "" ∧ (viewState sf tx.sender).votee ≠ tx.sender)
              ∧ a = (viewState sf tx.sender).votee then
        { viewState sf a with
            votingWeight := (viewState sf a).votingWeight - (tx.amount : Int) }
      else viewState sf a := by
  unfold tsfSender
  dsimp only
  rw [loadOrCreateState_snd, if_neg hle]
  by_cases hG : (viewState sf tx.sender).votee ≠ "" ∧ (viewState sf tx.sender).votee ≠ tx.sender
  · rw [if_pos hG]
    refine ⟨rfl, fun a => ?_⟩
    dsimp only
    rw [loadOrCreateState_snd, setAccount_viewState, loadOrCreateState_viewState,
      setAccount_viewState, loadOrCreateState_viewState, setAccount_viewState,
      loadOrCreateState_viewState]
    by_cases ha1 : a = tx.sender
    · subst ha1
      rw [if_neg (fun hc => hG.2 hc.symm), if_pos rfl, if_pos rfl]
    · by_cases ha2 : a = (viewState sf tx.sender).votee
      · rw [if_pos ha2, if_neg hG.2, if_neg ha1, if_pos ⟨hG, ha2⟩, ha2]
      · rw [if_neg ha2, if_neg ha1, if_neg ha1, if_neg (fun hc : _ ∧ _ => ha2 hc.2)]
  · rw [if_neg hG]
    refine ⟨rfl, fun a => ?_⟩
    rw [setAccount_viewState, loadOrCreateState_viewState]
    by_cases ha1 : a = tx.sender
    · rw [if_pos ha1, if_pos ha1]
    · rw [if_neg ha1, if_neg ha1, if_neg (fun hc : _ ∧ _ => hG hc.1)]

/-- Full characterization of the recipient half of a transfer on the
cache-then-trie account view. -/
theorem tsfRecipient_viewState (sf : Factory) (tx : Transfer) :
    ∀ a, viewState (tsfRecipient sf tx) a =
      if a = tx.recipient then
        { viewState sf tx.recipient with
            balance := (viewState sf tx.recipient).balance + tx.amount }
      else if ((viewState sf tx.recipient).votee ≠ "" ∧
               (viewState sf tx.recipient).votee ≠ tx.recipient)
              ∧ a = (viewState sf tx.recipient).votee then
        { viewState sf a with
            votingWeight := (viewState sf a).votingWeight + (tx.amount : Int) }
      else viewState sf a := by
  unfold tsfRecipient
  dsimp only
  rw [loadOrCreateState_snd]
  by_cases hG : (viewState sf tx.recipient).votee ≠ "" ∧
      (viewState sf tx.recipient).votee ≠ tx.recipient
  · rw [if_pos hG]
    intro a
    rw [loadOrCreateState_snd, setAccount_viewState, loadOrCreateState_viewState,
      setAccount_viewState, loadOrCreateState_viewState, setAccount_viewState,
      loadOrCreateState_viewState]
    by_cases ha1 : a = tx.recipient
    · subst ha1
      rw [if_neg (fun hc => hG.2 hc.symm), if_pos rfl, if_pos rfl]
    · by_cases ha2 : a = (viewState sf tx.recipient).votee
      · rw [if_pos ha2, if_neg hG.2, if_neg ha1, if_pos ⟨hG, ha2⟩, ha2]
      · rw [if_neg ha2, if_neg ha1, if_neg ha1, if_neg (fun hc : _ ∧ _ => ha2 hc.2)]
  · rw [if_neg hG]
    intro a
    rw [setAccount_viewState, loadOrCreateState_viewState]
    by_cases ha1 : a = tx.recipient
    · rw [if_pos ha1, if_pos ha1]
    · rw [if_neg ha1, if_neg ha1, if_neg (fun hc : _ ∧ _ => hG hc.1)]

/-- Claim C1: per-transfer behaviour of the transfer applier.  A transfer
marked as a contract call is skipped entirely.  A non-coinbase transfer whose
amount exceeds the sender's balance fails with `ErrNotEnoughBalance`.
Otherwise the amount is subtracted from the sender's balance, the sender's
nonce becomes the max of its current nonce and the transfer nonce, the amount
is subtracted from the voting weight of the sender's votee when that votee is
non-empty and different from the sender, the amount is added to the
recipient's balance, and the amount is added to the voting weight of the
recipient's votee when that votee is non-empty and different from the
recipient (distinctness side conditions keep the five effects separate). -/
theorem transfer_applier_correct (sf : Factory) (tx : Transfer) :
    (tx.isContractCall = true → applyTransfer sf tx = (sf, none)) ∧
    (tx.isContractCall = false → tx.isCoinbase = false →
      (viewState sf tx.sender).balance < tx.amount →
      (applyTransfer sf tx).2 = some FErr.notEnoughBalance) ∧
    (tx.isContractCall = false → tx.isCoinbase = false →
      tx.amount ≤ (viewState sf tx.sender).balance →
      tx.sender ≠ tx.recipient →
      (applyTransfer sf tx).2 = none ∧
      (viewState (applyTransfer sf tx).1 tx.sender).balance
        = (viewState sf tx.sender).balance - tx.amount ∧
      (viewState (applyTransfer sf tx).1 tx.sender).nonce
        = max (viewState sf tx.sender).nonce tx.nonce ∧
      ((viewState sf tx.sender).votee ≠ "" →
       (viewState sf tx.sender).votee ≠ tx.sender →
       (viewState sf tx.sender).votee ≠ tx.recipient →
       (viewState sf tx.sender).votee ≠ (viewState sf tx.recipient).votee →
        (viewState (applyTransfer sf tx).1 (viewState sf tx.sender).votee).votingWeight
          = (viewState sf (viewState sf tx.sender).votee).votingWeight - (tx.amount : Int)) ∧
      (viewState (applyTransfer sf tx).1 tx.recipient).balance
        = (viewState sf tx.recipient).balance + tx.amount ∧
      ((viewState sf tx.recipient).votee ≠ "" →
       (viewState sf tx.recipient).votee ≠ tx.recipient →
       (viewState sf tx.recipient).votee ≠ tx.sender →
       (viewState sf tx.recipient).votee ≠ (viewState sf tx.sender).votee →
        (viewState (applyTransfer sf tx).1 (viewState sf tx.recipient).votee).votingWeight
          = (viewState sf (viewState sf tx.recipient).votee).votingWeight + (tx.amount : Int))) := by
  refine ⟨?_, ?_, ?_⟩
  · intro h
    simp [applyTransfer, h]
  · intro hcc hcb hlt
    have hserr : tsfSender sf tx = ((loadOrCreateState sf tx.sender 0).1,
        some FErr.notEnoughBalance) := by
      unfold tsfSender
      dsimp only
      rw [loadOrCreateState_snd, if_pos hlt]
    simp [applyTransfer, hcc, hcb, hserr]
  · intro hcc hcb hle hsr
    have hle' : ¬ (viewState sf tx.sender).balance < tx.amount := by omega
    obtain ⟨hs0, hsv⟩ := tsfSender_viewState sf tx hle'
    have happ : applyTransfer sf tx = (tsfRecipient (tsfSender sf tx).1 tx, none) := by
      unfold applyTransfer
      rw [if_neg (by simp [hcc]), if_neg (by simp [hcb])]
      dsimp only
      rw [hs0]
    have hrv := tsfRecipient_viewState (tsfSender sf tx).1 tx
    -- the sender phase leaves the recipient's balance and votee unchanged
    have hrec : viewState (tsfSender sf tx).1 tx.recipient =
        (if ((viewState sf tx.sender).votee ≠ "" ∧ (viewState sf tx.sender).votee ≠ tx.sender)
            ∧ tx.recipient = (viewState sf tx.sender).votee then
          { viewState sf tx.recipient with
              votingWeight := (viewState sf tx.recipient).votingWeight - (tx.amount : Int) }
        else viewState sf tx.recipient) := by
      rw [hsv tx.recipient, if_neg (fun hc => hsr hc.symm)]
    have hRbal : (viewState (tsfSender sf tx).1 tx.recipient).balance
        = (viewState sf tx.recipient).balance := by
      rw [hrec]; split <;> rfl
    have hRvotee : (viewState (tsfSender sf tx).1 tx.recipient).votee
        = (viewState sf tx.recipient).votee := by
      rw [hrec]; split <;> rfl
    have hSombre : viewState (tsfSender sf tx).1 tx.sender =
        { viewState sf tx.sender with
            balance := (viewState sf tx.sender).balance - tx.amount,
            nonce := if tx.nonce > (viewState sf tx.sender).nonce then tx.nonce
                     else (viewState sf tx.sender).nonce } := by
      rw [hsv tx.sender, if_pos rfl]
    rw [happ]
    dsimp only
    refine ⟨rfl, ?_, ?_, ?_, ?_, ?_⟩
    · -- sender balance after the recipient phase
      rw [hrv tx.sender, if_neg hsr]
      by_cases hra : ((viewState (tsfSender sf tx).1 tx.recipient).votee ≠ "" ∧
          (viewState (tsfSender sf tx).1 tx.recipient).votee ≠ tx.recipient) ∧
          tx.sender = (viewState (tsfSender sf tx).1 tx.recipient).votee
      · rw [if_pos hra]
        show (viewState (tsfSender sf tx).1 tx.sender).balance = _
        rw [hSombre]
      · rw [if_neg hra, hSombre]
    · -- sender nonce after the recipient phase
      rw [hrv tx.sender, if_neg hsr]
      by_cases hra : ((viewState (tsfSender sf tx).1 tx.recipient).votee ≠ "" ∧
          (viewState (tsfSender sf tx).1 tx.recipient).votee ≠ tx.recipient) ∧
          tx.sender = (viewState (tsfSender sf tx).1 tx.recipient).votee
      · rw [if_pos hra]
        show (viewState (tsfSender sf tx).1 tx.sender).nonce = _
        rw [hSombre]
        exact if_gt_max _ _
      · rw [if_neg hra, hSombre]
        exact if_gt_max _ _
    · -- the sender's votee loses the amount
      intro hv1 hv2 hv3 hv4
      rw [hrv (viewState sf tx.sender).votee, if_neg hv3,
        if_neg (fun hc : _ ∧ _ => hv4 (hc.2.trans hRvotee)),
        hsv (viewState sf tx.sender).votee, if_neg hv2,
        if_pos ⟨⟨hv1, hv2⟩, rfl⟩]
    · -- recipient balance
      rw [hrv tx.recipient, if_pos rfl]
      show (viewState (tsfSender sf tx).1 tx.recipient).balance + tx.amount = _
      rw [hRbal]
    · -- the recipient's votee gains the amount
      intro hw1 hw2 hw3 hw4
      rw [hrv (viewState sf tx.recipient).votee, if_neg hw2,
        if_pos ⟨⟨(by rw [hRvotee]; exact hw1), (by rw [hRvotee]; exact hw2)⟩, hRvotee.symm⟩,
        hsv (viewState sf tx.recipient).votee, if_neg hw3,
        if_neg (fun hc : _ ∧ _ => hw4 hc.2)]

theorem setAccount_cachedCandidates (sf : Factory) (k : String) (s : State) :
    (setAccount sf k s).cachedCandidates = sf.cachedCandidates := rfl

theorem loadOrCreateState_cachedCandidates (sf : Factory) (k : String) (i : Nat) :
    (loadOrCreateState sf k i).1.cachedCandidates = sf.cachedCandidates := by
  unfold loadOrCreateState
  cases alookup k sf.cachedAccount
  · cases trieGet sf.accountTrie k <;> rfl
  · rfl

/-- The record produced by the nonce phase of a vote. -/
theorem voteNonce_snd (sf : Factory) (v : Vote) :
    (voteNonce sf v).2 = { viewState sf v.voterAddress with
      nonce := max (viewState sf v.voterAddress).nonce v.nonce } := by
  unfold voteNonce
  dsimp only
  rw [loadOrCreateState_snd]
  split
  · next hn =>
    have hm : max (viewState sf v.voterAddress).nonce v.nonce = v.nonce := by omega
    rw [hm]
  · next hn =>
    have hm : max (viewState sf v.voterAddress).nonce v.nonce =
        (viewState sf v.voterAddress).nonce := by omega
    rw [hm]

theorem voteNonce_viewState (sf : Factory) (v : Vote) (a : String) :
    viewState (voteNonce sf v).1 a =
      if a = v.voterAddress then (voteNonce sf v).2 else viewState sf a := by
  unfold voteNonce
  dsimp only
  rw [setAccount_viewState, loadOrCreateState_viewState]

theorem voteNonce_cachedCandidates (sf : Factory) (v : Vote) :
    (voteNonce sf v).1.cachedCandidates = sf.cachedCandidates := by
  unfold voteNonce
  dsimp only
  rw [setAccount_cachedCandidates, loadOrCreateState_cachedCandidates]

/-- The voter record produced by the old-votee phase of a vote. -/
theorem voteClearOld_snd (sf : Factory) (v : Vote) (vf0 : State) :
    (voteClearOld sf v vf0).2 =
      if vf0.votee ≠ "" ∧ vf0.votee ≠ v.voterAddress then { vf0 with votee := "" }
      else vf0 := by
  unfold voteClearOld
  by_cases hG : vf0.votee ≠ "" ∧ vf0.votee ≠ v.voterAddress
  · rw [if_pos hG, if_pos hG]
  · rw [if_neg hG, if_neg hG]

/-- Account view after the old-votee phase of a vote. -/
theorem voteClearOld_viewState (sf : Factory) (v : Vote) (vf0 : State)
    (hpre : viewState sf v.voterAddress = vf0) (a : String) :
    viewState (voteClearOld sf v vf0).1 a =
      if (vf0.votee ≠ "" ∧ vf0.votee ≠ v.voterAddress) ∧ a = vf0.votee then
        { viewState sf a with
            votingWeight := (viewState sf a).votingWeight - (vf0.balance : Int) }
      else if a = v.voterAddress then (voteClearOld sf v vf0).2
      else viewState sf a := by
  rw [voteClearOld_snd]
  unfold voteClearOld
  by_cases hG : vf0.votee ≠ "" ∧ vf0.votee ≠ v.voterAddress
  · rw [if_pos hG, if_pos hG]
    dsimp only
    rw [loadOrCreateState_snd, setAccount_viewState, setAccount_viewState,
      loadOrCreateState_viewState]
    by_cases ha1 : a = v.voterAddress
    · rw [if_pos ha1, if_neg (fun hc : _ ∧ _ => hG.2 (ha1 ▸ hc.2).symm), if_pos ha1]
    · by_cases ha2 : a = vf0.votee
      · rw [if_neg ha1, if_pos ha2, if_pos ⟨hG, ha2⟩, ha2]
      · rw [if_neg ha1, if_neg ha2, if_neg (fun hc : _ ∧ _ => ha2 hc.2), if_neg ha1]
  · rw [if_neg hG, if_neg hG]
    by_cases ha1 : a = v.voterAddress
    · rw [if_neg (fun hc : _ ∧ _ => hG hc.1), if_pos ha1, ha1, hpre]
    · rw [if_neg (fun hc : _ ∧ _ => hG hc.1), if_neg ha1]

theorem voteClearOld_cachedCandidates (sf : Factory) (v : Vote) (vf0 : State) :
    (voteClearOld sf v vf0).1.cachedCandidates = sf.cachedCandidates := by
  unfold voteClearOld
  split
  · dsimp only
    rw [setAccount_cachedCandidates, setAccount_cachedCandidates,
      loadOrCreateState_cachedCandidates]
  · rfl

/-- Case A of the vote case split: empty votee address (unvote). -/
theorem voteCase_unvote (sf : Factory) (blockHeight : Nat) (v : Vote) (vf : State)
    (hB : v.voteeAddress = "") :
    (∀ a, viewState (voteCase sf blockHeight v vf) a =
      if a = v.voterAddress then { vf with isCandidate := false } else viewState sf a) ∧
    (voteCase sf blockHeight v vf).cachedCandidates = sf.cachedCandidates := by
  unfold voteCase
  rw [if_pos hB]
  exact ⟨fun a => setAccount_viewState sf v.voterAddress _ a,
    setAccount_cachedCandidates sf v.voterAddress _⟩

/-- Case B of the vote case split: votee different from the voter. -/
theorem voteCase_other (sf : Factory) (blockHeight : Nat) (v : Vote) (vf : State)
    (hB : ¬ v.voteeAddress = "") (hBA : v.voterAddress ≠ v.voteeAddress) :
    (∀ a, viewState (voteCase sf blockHeight v vf) a =
      if a = v.voterAddress then { vf with votee := v.voteeAddress }
      else if a = v.voteeAddress then
        { viewState sf a with
            votingWeight := (viewState sf a).votingWeight + (vf.balance : Int) }
      else viewState sf a) ∧
    (voteCase sf blockHeight v vf).cachedCandidates = sf.cachedCandidates := by
  unfold voteCase
  rw [if_neg hB]
  dsimp only
  rw [if_pos hBA]
  constructor
  · intro a
    rw [loadOrCreateState_snd, setAccount_viewState, setAccount_viewState,
      loadOrCreateState_viewState]
    by_cases ha1 : a = v.voterAddress
    · rw [if_pos ha1, if_pos ha1]
    · by_cases ha2 : a = v.voteeAddress
      · rw [if_neg ha1, if_pos ha2, if_neg ha1, if_pos ha2, ha2]
      · rw [if_neg ha1, if_neg ha2, if_neg ha1, if_neg ha2]
  · rw [setAccount_cachedCandidates, setAccount_cachedCandidates,
      loadOrCreateState_cachedCandidates]

/-- Case C of the vote case split: self-vote. -/
theorem voteCase_self (sf : Factory) (blockHeight : Nat) (v : Vote) (vf : State)
    (hB : ¬ v.voteeAddress = "") (hBA : v.voteeAddress = v.voterAddress) :
    (∀ a, viewState (voteCase sf blockHeight v vf) a =
      if a = v.voterAddress then { vf with votee := v.voterAddress, isCandidate := true }
      else viewState sf a) ∧
    ((alookup v.voterAddress sf.cachedCandidates).isSome →
      (voteCase sf blockHeight v vf).cachedCandidates = sf.cachedCandidates) ∧
    (alookup v.voterAddress sf.cachedCandidates = none →
      (voteCase sf blockHeight v vf).cachedCandidates =
        aupsert v.voterAddress
          { address := v.voterAddress, pubKey := v.selfPubkey, votes := 0,
            creationHeight := blockHeight, lastUpdateHeight := 0 }
          sf.cachedCandidates) := by
  unfold voteCase
  rw [if_neg hB]
  dsimp only
  rw [if_neg (fun hc => hc hBA.symm)]
  have hpool : (setAccount (loadOrCreateState sf v.voteeAddress 0).1 v.voterAddress
      { vf with votee := v.voterAddress, isCandidate := true }).cachedCandidates =
      sf.cachedCandidates := by
    rw [setAccount_cachedCandidates, loadOrCreateState_cachedCandidates]
  rw [hpool]
  refine ⟨?_, ?_, ?_⟩
  · intro a
    split
    · rw [setAccount_viewState, loadOrCreateState_viewState]
    · next hsome =>
      show viewState { setAccount _ _ _ with cachedCandidates := _ } a = _
      have hview : ∀ (b : Factory) (c), viewState { b with cachedCandidates := c } a =
          viewState b a := fun _ _ => rfl
      rw [hview, setAccount_viewState, loadOrCreateState_viewState]
  · intro hsome
    split
    · rw [hpool]
    · next hnone =>
      rw [Option.isSome_iff_exists] at hsome
      obtain ⟨c, hc⟩ := hsome
      rw [hc] at hnone
      simp at hnone
  · intro hnone
    split
    · next hsome => rw [hnone] at hsome; simp at hsome
    · show ({ setAccount _ _ _ with cachedCandidates := _ } : Factory).cachedCandidates = _
      rw [show ∀ (b : Factory) (c), ({ b with cachedCandidates := c } : Factory).cachedCandidates
          = c from fun _ _ => rfl]

/-- Claim C2: per-vote behaviour of the vote applier.  The voter's nonce
becomes the max of its current nonce and the vote nonce.  When the voter's
previous votee is non-empty and differs from the voter, the voter's entire
current balance is subtracted from that votee's voting weight (the votee
field is cleared before the case split).  An empty votee address unvotes
(clears `is_candidate`).  A votee address different from the voter adds the
voter's balance to that votee's weight and records the votee without making
the voter a candidate.  A votee address equal to the voter self-votes:
votee set to self, `is_candidate` set, and a candidate record with
`creation_height = block_height` is inserted iff the voter is not already in
the pool. -/
theorem vote_applier_correct (sf : Factory) (blockHeight : Nat) (v : Vote) :
    (viewState (applyVote sf blockHeight v) v.voterAddress).nonce
      = max (viewState sf v.voterAddress).nonce v.nonce ∧
    ((viewState sf v.voterAddress).votee ≠ "" →
     (viewState sf v.voterAddress).votee ≠ v.voterAddress →
     (viewState sf v.voterAddress).votee ≠ v.voteeAddress →
      (viewState (applyVote sf blockHeight v) (viewState sf v.voterAddress).votee).votingWeight
        = (viewState sf (viewState sf v.voterAddress).votee).votingWeight
          - ((viewState sf v.voterAddress).balance : Int)) ∧
    (v.voteeAddress = "" →
      (viewState (applyVote sf blockHeight v) v.voterAddress).isCandidate = false) ∧
    (v.voteeAddress ≠ "" → v.voteeAddress ≠ v.voterAddress →
      (viewState (applyVote sf blockHeight v) v.voterAddress).votee = v.voteeAddress ∧
      (viewState (applyVote sf blockHeight v) v.voterAddress).isCandidate
        = (viewState sf v.voterAddress).isCandidate ∧
      (v.voteeAddress ≠ (viewState sf v.voterAddress).votee →
        (viewState (applyVote sf blockHeight v) v.voteeAddress).votingWeight
          = (viewState sf v.voteeAddress).votingWeight
            + ((viewState sf v.voterAddress).balance : Int))) ∧
    (v.voteeAddress = v.voterAddress → v.voteeAddress ≠ "" →
      (viewState (applyVote sf blockHeight v) v.voterAddress).votee = v.voterAddress ∧
      (viewState (applyVote sf blockHeight v) v.voterAddress).isCandidate = true ∧
      (alookup v.voterAddress sf.cachedCandidates = none →
        (applyVote sf blockHeight v).cachedCandidates =
          aupsert v.voterAddress
            { address := v.voterAddress, pubKey := v.selfPubkey, votes := 0,
              creationHeight := blockHeight, lastUpdateHeight := 0 }
            sf.cachedCandidates) ∧
      ((alookup v.voterAddress sf.cachedCandidates).isSome →
        (applyVote sf blockHeight v).cachedCandidates = sf.cachedCandidates)) := by
  have hvf0 := voteNonce_snd sf v
  have hp1 := voteNonce_viewState sf v
  have hpre1 : viewState (voteNonce sf v).1 v.voterAddress = (voteNonce sf v).2 := by
    rw [hp1 v.voterAddress, if_pos rfl]
  have hq := voteClearOld_viewState (voteNonce sf v).1 v (voteNonce sf v).2 hpre1
  have hvf := voteClearOld_snd (voteNonce sf v).1 v (voteNonce sf v).2
  have hvotee0 : (voteNonce sf v).2.votee = (viewState sf v.voterAddress).votee := by
    rw [hvf0]
  have hbal0 : (voteNonce sf v).2.balance = (viewState sf v.voterAddress).balance := by
    rw [hvf0]
  have hcand0 : (voteNonce sf v).2.isCandidate = (viewState sf v.voterAddress).isCandidate := by
    rw [hvf0]
  have hnonce0 : (voteNonce sf v).2.nonce = max (viewState sf v.voterAddress).nonce v.nonce := by
    rw [hvf0]
  have hvfn : (voteClearOld (voteNonce sf v).1 v (voteNonce sf v).2).2.nonce
      = (voteNonce sf v).2.nonce := by
    rw [hvf]; split <;> rfl
  have hvfb : (voteClearOld (voteNonce sf v).1 v (voteNonce sf v).2).2.balance
      = (voteNonce sf v).2.balance := by
    rw [hvf]; split <;> rfl
  have hvfc : (voteClearOld (voteNonce sf v).1 v (voteNonce sf v).2).2.isCandidate
      = (voteNonce sf v).2.isCandidate := by
    rw [hvf]; split <;> rfl
  have hpre2 : viewState (voteClearOld (voteNonce sf v).1 v (voteNonce sf v).2).1 v.voterAddress
      = (voteClearOld (voteNonce sf v).1 v (voteNonce sf v).2).2 := by
    rw [hq v.voterAddress, if_neg (fun hc : _ ∧ _ => hc.1.2 hc.2.symm), if_pos rfl]
  have happ : applyVote sf blockHeight v =
      voteCase (voteClearOld (voteNonce sf v).1 v (voteNonce sf v).2).1 blockHeight v
        (voteClearOld (voteNonce sf v).1 v (voteNonce sf v).2).2 := rfl
  have hq1pool : (voteClearOld (voteNonce sf v).1 v (voteNonce sf v).2).1.cachedCandidates
      = sf.cachedCandidates := by
    rw [voteClearOld_cachedCandidates, voteNonce_cachedCandidates]
  refine ⟨?_, ?_, ?_, ?_, ?_⟩
  · -- nonce
    rw [happ]
    by_cases hB : v.voteeAddress = ""
    · rw [(voteCase_unvote _ blockHeight v _ hB).1 v.voterAddress, if_pos rfl]
      show (voteClearOld (voteNonce sf v).1 v (voteNonce sf v).2).2.nonce = _
      rw [hvfn, hnonce0]
    · by_cases hBA : v.voterAddress = v.voteeAddress
      · rw [((voteCase_self _ blockHeight v _ hB hBA.symm).1 v.voterAddress), if_pos rfl]
        show (voteClearOld (voteNonce sf v).1 v (voteNonce sf v).2).2.nonce = _
        rw [hvfn, hnonce0]
      · rw [(voteCase_other _ blockHeight v _ hB hBA).1 v.voterAddress, if_pos rfl]
        show (voteClearOld (voteNonce sf v).1 v (voteNonce sf v).2).2.nonce = _
        rw [hvfn, hnonce0]
  · -- old votee loses the voter's balance
    intro ho1 ho2 ho3
    have hqOV : viewState (voteClearOld (voteNonce sf v).1 v (voteNonce sf v).2).1
        (viewState sf v.voterAddress).votee =
        { viewState sf (viewState sf v.voterAddress).votee with
            votingWeight := (viewState sf (viewState sf v.voterAddress).votee).votingWeight
              - ((viewState sf v.voterAddress).balance : Int) } := by
      rw [hq (viewState sf v.voterAddress).votee,
        if_pos ⟨⟨by rw [hvotee0]; exact ho1, by rw [hvotee0]; exact ho2⟩, hvotee0.symm⟩,
        hp1 (viewState sf v.voterAddress).votee, if_neg ho2, hbal0]
    rw [happ]
    by_cases hB : v.voteeAddress = ""
    · rw [(voteCase_unvote _ blockHeight v _ hB).1 (viewState sf v.voterAddress).votee,
        if_neg ho2, hqOV]
    · by_cases hBA : v.voterAddress = v.voteeAddress
      · rw [(voteCase_self _ blockHeight v _ hB hBA.symm).1 (viewState sf v.voterAddress).votee,
          if_neg ho2, hqOV]
      · rw [(voteCase_other _ blockHeight v _ hB hBA).1 (viewState sf v.voterAddress).votee,
          if_neg ho2, if_neg ho3, hqOV]
  · -- unvote
    intro hB
    rw [happ, (voteCase_unvote _ blockHeight v _ hB).1 v.voterAddress, if_pos rfl]
  · -- vote to a different person
    intro hB hBA
    have hne : v.voterAddress ≠ v.voteeAddress := fun hc => hBA hc.symm
    obtain ⟨hview, _⟩ := voteCase_other
      (voteClearOld (voteNonce sf v).1 v (voteNonce sf v).2).1 blockHeight v
      (voteClearOld (voteNonce sf v).1 v (voteNonce sf v).2).2 hB hne
    refine ⟨?_, ?_, ?_⟩
    · rw [happ, hview v.voterAddress, if_pos rfl]
    · rw [happ, hview v.voterAddress, if_pos rfl]
      show (voteClearOld (voteNonce sf v).1 v (voteNonce sf v).2).2.isCandidate = _
      rw [hvfc, hcand0]
    · intro hBO
      rw [happ, hview v.voteeAddress, if_neg hne.symm, if_pos rfl]
      have hqB : viewState (voteClearOld (voteNonce sf v).1 v (voteNonce sf v).2).1
          v.voteeAddress = viewState sf v.voteeAddress := by
        rw [hq v.voteeAddress,
          if_neg (fun hc : _ ∧ _ => hBO (hc.2.trans hvotee0)),
          if_neg hne.symm, hp1 v.voteeAddress, if_neg hne.symm]
      rw [hqB]
      show (viewState sf v.voteeAddress).votingWeight
          + ((voteClearOld (voteNonce sf v).1 v (voteNonce sf v).2).2.balance : Int) = _
      rw [hvfb, hbal0]
  · -- self-vote
    intro hBA hB
    obtain ⟨hview, hsome, hnone⟩ := voteCase_self
      (voteClearOld (voteNonce sf v).1 v (voteNonce sf v).2).1 blockHeight v
      (voteClearOld (voteNonce sf v).1 v (voteNonce sf v).2).2 hB hBA
    refine ⟨?_, ?_, ?_, ?_⟩
    · rw [happ, hview v.voterAddress, if_pos rfl]
    · rw [happ, hview v.voterAddress, if_pos rfl]
    · intro hpool
      rw [happ, hnone (by rw [hq1pool]; exact hpool), hq1pool]
    · intro hpool
      rw [happ, hsome (by rw [hq1pool]; exact hpool), hq1pool]

/-! ## The candidate total order and the insertion sort -/

theorem candLE_total (a b : Candidate) : candLE a b = true ∨ candLE b a = true := by
  unfold candLE
  by_cases h1 : a.votes = b.votes
  · rw [if_pos h1, if_pos h1.symm]
    by_cases h2 : a.creationHeight = b.creationHeight
    · rw [if_pos h2, if_pos h2.symm]
      simp only [decide_eq_true_eq]
      exact (le_total a.address b.address).imp (fun h => not_lt.mpr h) (fun h => not_lt.mpr h)
    · rw [if_neg h2, if_neg (fun hc => h2 hc.symm)]
      simp only [decide_eq_true_eq]
      omega
  · rw [if_neg h1, if_neg (fun hc => h1 hc.symm)]
    simp only [decide_eq_true_eq]
    omega

theorem candLE_trans {a b c : Candidate} (hab : candLE a b = true) (hbc : candLE b c = true) :
    candLE a c = true := by
  unfold candLE at hab hbc ⊢
  split_ifs at hab hbc ⊢ <;>
    simp only [decide_eq_true_eq] at hab hbc ⊢ <;>
    try omega
  all_goals
    exact not_lt.mpr ((not_lt.mp hab).trans (not_lt.mp hbc))

theorem mem_insertCand (x c : Candidate) (l : List Candidate) :
    x ∈ insertCand c l ↔ x = c ∨ x ∈ l := by
  induction l with
  | nil => simp [insertCand]
  | cons d ds ih =>
    unfold insertCand
    split
    · simp [List.mem_cons]
    · simp only [List.mem_cons, ih]
      tauto

theorem sortedCands_insert (c : Candidate) (l : List Candidate) (hs : SortedCands l) :
    SortedCands (insertCand c l) := by
  induction l with
  | nil => simp [insertCand, SortedCands]
  | cons d ds ih =>
    obtain ⟨hd, hds⟩ := List.pairwise_cons.mp hs
    unfold insertCand
    split
    · next hcd =>
      refine List.Pairwise.cons ?_ hs
      intro x hx
      rcases List.mem_cons.mp hx with rfl | hx'
      · exact hcd
      · exact candLE_trans hcd (hd x hx')
    · next hcd =>
      have hdc : candLE d c = true := by
        rcases candLE_total c d with h | h
        · exact absurd h (by simpa using hcd)
        · exact h
      refine List.Pairwise.cons ?_ (ih hds)
      intro x hx
      rcases (mem_insertCand x c ds).mp hx with rfl | hx'
      · exact hdc
      · exact hd x hx'

theorem sortCands_sorted (l : List Candidate) : SortedCands (sortCands l) := by
  induction l with
  | nil => exact List.Pairwise.nil
  | cons c cs ih => exact sortedCands_insert c (sortCands cs) ih

theorem insertCand_length (c : Candidate) (l : List Candidate) :
    (insertCand c l).length = l.length + 1 := by
  induction l with
  | nil => rfl
  | cons d ds ih =>
    unfold insertCand
    split
    · rfl
    · simp [List.length_cons, ih]

theorem sortCands_length (l : List Candidate) : (sortCands l).length = l.length := by
  induction l with
  | nil => rfl
  | cons c cs ih => simp [sortCands, insertCand_length, ih]

theorem sortCands_eq_of_sorted {l : List Candidate} (hs : SortedCands l) :
    sortCands l = l := by
  induction l with
  | nil => rfl
  | cons c cs ih =>
    obtain ⟨hc, hcs⟩ := List.pairwise_cons.mp hs
    show insertCand c (sortCands cs) = c :: cs
    rw [ih hcs]
    cases cs with
    | nil => rfl
    | cons d ds =>
      show insertCand c (d :: ds) = c :: d :: ds
      unfold insertCand
      rw [if_pos (hc d (List.mem_cons_self d ds))]

theorem sortCands_idem (l : List Candidate) : sortCands (sortCands l) = sortCands l :=
  sortCands_eq_of_sorted (sortCands_sorted l)

def c6ca : Candidate :=
  { address := "a", pubKey := [], votes := 2, creationHeight := 0, lastUpdateHeight := 0 }

def c6cb : Candidate :=
  { address := "b", pubKey := [], votes := 1, creationHeight := 0, lastUpdateHeight := 0 }

/-- Claim C6 counterexample: when the pool does not exceed `numCandidates`,
`Candidates()` returns it in map-iteration order without sorting; a pool
holding the two candidates in the order (1 vote, 2 votes) is returned as-is,
violating the votes-descending total order. -/
theorem candidates_unsorted_counterexample :
    (candidatesOf (mkFactory [("b", c6cb), ("a", c6ca)] [] [] none 2 9)).2 = [c6cb, c6ca] ∧
    ¬ SortedCands (candidatesOf (mkFactory [("b", c6cb), ("a", c6ca)] [] [] none 2 9)).2 := by
  refine ⟨rfl, ?_⟩
  intro hs
  have h := (List.pairwise_cons.mp hs).1 c6ca (List.mem_singleton.mpr rfl)
  revert h
  decide

/-- Claim C6 (amended): `Candidates()` sorts by the total order and truncates
to `numCandidates` entries only when the live pool exceeds `numCandidates`
(and then the result is sorted with exactly `numCandidates` entries); when
the pool fits, the pool is returned as iterated, without sorting.  The
returned height is the in-memory current chain height in both cases. -/
theorem candidates_sorted_when_truncating (sf : Factory) :
    (sf.numCandidates < (mapToCandidates sf.cachedCandidates).length →
      (candidatesOf sf).2 = (sortCands (mapToCandidates sf.cachedCandidates)).take
        sf.numCandidates ∧
      SortedCands (candidatesOf sf).2 ∧
      (candidatesOf sf).2.length = sf.numCandidates) ∧
    ((mapToCandidates sf.cachedCandidates).length ≤ sf.numCandidates →
      (candidatesOf sf).2 = mapToCandidates sf.cachedCandidates) ∧
    (candidatesOf sf).1 = sf.currentChainHeight := by
  refine ⟨?_, ?_, ?_⟩
  · intro hlt
    have hcond : ¬ (mapToCandidates sf.cachedCandidates).length ≤ sf.numCandidates := by omega
    have heq : (candidatesOf sf).2 =
        (sortCands (mapToCandidates sf.cachedCandidates)).take sf.numCandidates := by
      unfold candidatesOf
      rw [if_neg hcond]
    refine ⟨heq, ?_, ?_⟩
    · rw [heq]
      exact (sortCands_sorted _).sublist (List.take_sublist _ _)
    · rw [heq, List.length_take, sortCands_length]
      omega
  · intro hle
    unfold candidatesOf
    rw [if_pos hle]
  · unfold candidatesOf
    dsimp only
    split <;> rfl

theorem candidates_sorted_when_truncating_witness :
    (mkFactory [("b", c6cb), ("a", c6ca)] [] [] none 1 9).numCandidates <
      (mapToCandidates (mkFactory [("b", c6cb), ("a", c6ca)] [] [] none 1 9).cachedCandidates).length ∧
    ((candidatesOf (mkFactory [("b", c6cb), ("a", c6ca)] [] [] none 1 9)).2 =
      (sortCands (mapToCandidates
        (mkFactory [("b", c6cb), ("a", c6ca)] [] [] none 1 9).cachedCandidates)).take
        (mkFactory [("b", c6cb), ("a", c6ca)] [] [] none 1 9).numCandidates ∧
     SortedCands (candidatesOf (mkFactory [("b", c6cb), ("a", c6ca)] [] [] none 1 9)).2 ∧
     (candidatesOf (mkFactory [("b", c6cb), ("a", c6ca)] [] [] none 1 9)).2.length =
      (mkFactory [("b", c6cb), ("a", c6ca)] [] [] none 1 9).numCandidates) :=
  ⟨by decide,
   (candidates_sorted_when_truncating (mkFactory [("b", c6cb), ("a", c6ca)] [] [] none 1 9)).1
     (by decide)⟩

/-- Claim C7 counterexample: the value archived into the candidate trie is the
serialization of the full sorted pool, not the truncated one.  With
`numCandidates = 1` and two candidates in the pool, a successful commit at
height 3 stores both candidates under the height key, while the serialization
of the truncated sorted pool holds only one. -/
theorem archive_not_truncated_counterexample :
    (commitStateChanges (mkFactory [("a", c6ca), ("b", c6cb)] [] [] none 1 0) 3 [] [] []).2
      = none ∧
    trieGet (commitStateChanges (mkFactory [("a", c6ca), ("b", c6cb)] [] [] none 1 0)
        3 [] [] []).1.candidateTrie (uint64ToBytes 3) = some [c6ca, c6cb] ∧
    serializeCands ((sortCands (mapToCandidates
        (mkFactory [("a", c6ca), ("b", c6cb)] [] [] none 1 0).cachedCandidates)).take
        (mkFactory [("a", c6ca), ("b", c6cb)] [] [] none 1 0).numCandidates) = [c6ca] ∧
    some [c6ca, c6cb] ≠ some [c6ca] := by
  refine ⟨by decide, by decide, by decide, by decide⟩

/-- Claim C7 (amended): every successful `CommitStateChanges(block_height,...)`
upserts, under the 8-byte big-endian encoding of `block_height`, the
serialization of the live candidate pool sorted by the total order — the
full pool, without truncation to `num_candidates` (truncation happens on
read, in `CandidatesByHeight`). -/
theorem archive_full_sorted_pool (sf : Factory) (blockHeight : Nat)
    (ts : List Transfer) (vs : List Vote) (es : List Execution)
    (hres : (commitStateChanges sf blockHeight ts vs es).2 = none) :
    trieGet (commitStateChanges sf blockHeight ts vs es).1.candidateTrie
        (uint64ToBytes blockHeight)
      = some (sortCands (mapToCandidates
          (commitStateChanges sf blockHeight ts vs es).1.cachedCandidates)) ∧
    SortedCands (sortCands (mapToCandidates
        (commitStateChanges sf blockHeight ts vs es).1.cachedCandidates)) := by
  obtain ⟨sfm, heq⟩ := commit_success sf blockHeight ts vs es hres
  rw [heq, commitTail_candidateTrie, commitTail_cachedCandidates]
  refine ⟨?_, sortCands_sorted _⟩
  rw [trieGet_commit, trieGet_upsert, if_pos rfl]
  show some (sortCands (sortCands _)) = _
  rw [sortCands_idem]

theorem archive_full_sorted_pool_witness :
    (commitStateChanges (mkFactory [("a", c6ca), ("b", c6cb)] [] [] none 1 0) 3 [] [] []).2
      = none ∧
    (trieGet (commitStateChanges (mkFactory [("a", c6ca), ("b", c6cb)] [] [] none 1 0)
        3 [] [] []).1.candidateTrie (uint64ToBytes 3)
      = some (sortCands (mapToCandidates
          (commitStateChanges (mkFactory [("a", c6ca), ("b", c6cb)] [] [] none 1 0)
            3 [] [] []).1.cachedCandidates)) ∧
     SortedCands (sortCands (mapToCandidates
        (commitStateChanges (mkFactory [("a", c6ca), ("b", c6cb)] [] [] none 1 0)
          3 [] [] []).1.cachedCandidates))) :=
  ⟨by decide,
   archive_full_sorted_pool (mkFactory [("a", c6ca), ("b", c6cb)] [] [] none 1 0) 3 [] [] []
     (by decide)⟩

def c1sf : Factory := mkFactory []
  [("s", { newState 10 with votee := "v" }), ("r", { newState 5 with votee := "w" }),
   ("v", { newState 0 with votingWeight := 100 }), ("w", { newState 0 with votingWeight := 50 })]
  [] none 2 0

def c1tx : Transfer :=
  { isContractCall := false, isCoinbase := false, sender := "s", recipient := "r",
    amount := 7, nonce := 3 }

theorem transfer_applier_correct_witness :
    (applyTransfer c1sf c1tx).2 = none ∧
    (viewState (applyTransfer c1sf c1tx).1 c1tx.sender).balance
      = (viewState c1sf c1tx.sender).balance - c1tx.amount ∧
    (viewState (applyTransfer c1sf c1tx).1 c1tx.sender).nonce
      = max (viewState c1sf c1tx.sender).nonce c1tx.nonce ∧
    (viewState (applyTransfer c1sf c1tx).1 (viewState c1sf c1tx.sender).votee).votingWeight
      = (viewState c1sf (viewState c1sf c1tx.sender).votee).votingWeight - (c1tx.amount : Int) ∧
    (viewState (applyTransfer c1sf c1tx).1 c1tx.recipient).balance
      = (viewState c1sf c1tx.recipient).balance + c1tx.amount ∧
    (viewState (applyTransfer c1sf c1tx).1 (viewState c1sf c1tx.recipient).votee).votingWeight
      = (viewState c1sf (viewState c1sf c1tx.recipient).votee).votingWeight
        + (c1tx.amount : Int) := by
  obtain ⟨h1, h2, h3, h4, h5, h6⟩ :=
    (transfer_applier_correct c1sf c1tx).2.2 rfl rfl (by decide) (by decide)
  exact ⟨h1, h2, h3, h4 (by decide) (by decide) (by decide) (by decide), h5,
    h6 (by decide) (by decide) (by decide) (by decide)⟩

def c2sf : Factory := mkFactory []
  [("a", { newState 7 with votee := "o", nonce := 2 }),
   ("o", { newState 0 with votingWeight := 50 }), ("b", newState 3)]
  [] none 2 0

def c2v : Vote := { voterAddress := "a", voteeAddress := "b", selfPubkey := [], nonce := 9 }

theorem vote_applier_correct_witness :
    (viewState (applyVote c2sf 4 c2v) c2v.voterAddress).nonce
      = max (viewState c2sf c2v.voterAddress).nonce c2v.nonce ∧
    (viewState (applyVote c2sf 4 c2v) (viewState c2sf c2v.voterAddress).votee).votingWeight
      = (viewState c2sf (viewState c2sf c2v.voterAddress).votee).votingWeight
        - ((viewState c2sf c2v.voterAddress).balance : Int) ∧
    (viewState (applyVote c2sf 4 c2v) c2v.voterAddress).votee = c2v.voteeAddress ∧
    (viewState (applyVote c2sf 4 c2v) c2v.voterAddress).isCandidate
      = (viewState c2sf c2v.voterAddress).isCandidate ∧
    (viewState (applyVote c2sf 4 c2v) c2v.voteeAddress).votingWeight
      = (viewState c2sf c2v.voteeAddress).votingWeight
        + ((viewState c2sf c2v.voterAddress).balance : Int) := by
  obtain ⟨h1, h2, h3, h4, h5⟩ := vote_applier_correct c2sf 4 c2v
  obtain ⟨hx, hy, hz⟩ := h4 (by decide) (by decide)
  exact ⟨h1, h2 (by decide) (by decide) (by decide), hx, hy, hz (by decide)⟩

def c9sf : Factory := mkFactory [] [("a", { newState 0 with nonce := 4 })] [] none 2 0

theorem execution_nonce_increment_witness :
    viewAccount c9sf "a" = some { newState 0 with nonce := 4 } ∧
    ((applyExec c9sf { executor := "a", nonce := 5 }).2 = none ∧
     viewNonce (applyExec c9sf { executor := "a", nonce := 5 }).1 "a" = max ((4 + 1) % w64) 5 ∧
     ((4 : Nat) + 1 < w64 → (5 : Nat) = 4 + 1 →
       viewNonce (applyExec c9sf { executor := "a", nonce := 5 }).1 "a" = 4 + 1)) :=
  ⟨by decide, execution_nonce_increment c9sf { executor := "a", nonce := 5 }
    { newState 0 with nonce := 4 } (by decide)⟩

/-! ## Nonce tracking through the appliers (for the monotonicity claim) -/

theorem tsfRecipient_viewNonce (sf : Factory) (tx : Transfer) (a : String) :
    viewNonce (tsfRecipient sf tx) a = viewNonce sf a := by
  unfold viewNonce
  rw [tsfRecipient_viewState sf tx a]
  split
  · next h => rw [h]
  · split
    · rfl
    · rfl

theorem tsfSender_nonce_bounds (sf : Factory) (tx : Transfer) (a : String) :
    viewNonce sf a ≤ viewNonce (tsfSender sf tx).1 a ∧
    viewNonce (tsfSender sf tx).1 a ≤ max (viewNonce sf a) tx.nonce := by
  by_cases hle : (viewState sf tx.sender).balance < tx.amount
  · have h : (tsfSender sf tx).1 = (loadOrCreateState sf tx.sender 0).1 := by
      unfold tsfSender
      dsimp only
      rw [loadOrCreateState_snd, if_pos hle]
    unfold viewNonce
    rw [h, loadOrCreateState_viewState]
    exact ⟨le_refl _, le_max_left _ _⟩
  · obtain ⟨h0, hv⟩ := tsfSender_viewState sf tx hle
    unfold viewNonce
    rw [hv a]
    split
    · next h => rw [h]; constructor <;> (dsimp only; split <;> omega)
    · split
      · exact ⟨le_refl _, le_max_left _ _⟩
      · exact ⟨le_refl _, le_max_left _ _⟩

theorem applyTransfer_nonce_bounds (sf : Factory) (tx : Transfer) (a : String) :
    viewNonce sf a ≤ viewNonce (applyTransfer sf tx).1 a ∧
    viewNonce (applyTransfer sf tx).1 a ≤ max (viewNonce sf a) tx.nonce := by
  unfold applyTransfer
  split
  · exact ⟨le_refl _, le_max_left _ _⟩
  · split
    · rw [show viewNonce (tsfRecipient sf tx, (none : Option FErr)).1 a = viewNonce sf a from
        tsfRecipient_viewNonce sf tx a]
      exact ⟨le_refl _, le_max_left _ _⟩
    · dsimp only
      cases h : (tsfSender sf tx).2 with
      | some e => exact tsfSender_nonce_bounds sf tx a
      | none =>
        rw [show viewNonce (tsfRecipient (tsfSender sf tx).1 tx, (none : Option FErr)).1 a
            = viewNonce (tsfSender sf tx).1 a from tsfRecipient_viewNonce _ tx a]
        exact tsfSender_nonce_bounds sf tx a

theorem voteNonce_viewNonce (sf : Factory) (v : Vote) (a : String) :
    viewNonce (voteNonce sf v).1 a =
      if a = v.voterAddress then max (viewState sf v.voterAddress).nonce v.nonce
      else viewNonce sf a := by
  unfold viewNonce
  rw [voteNonce_viewState]
  split
  · rw [voteNonce_snd]
  · rfl

theorem voteClearOld_viewNonce (sf : Factory) (v : Vote) (vf0 : State)
    (hpre : viewState sf v.voterAddress = vf0) (a : String) :
    viewNonce (voteClearOld sf v vf0).1 a = viewNonce sf a := by
  unfold viewNonce
  rw [voteClearOld_viewState sf v vf0 hpre a]
  split
  · rfl
  · split
    · next h2 =>
      rw [voteClearOld_snd, h2, hpre]
      split <;> rfl
    · rfl

theorem voteCase_viewNonce (sf : Factory) (blockHeight : Nat) (v : Vote) (vf : State)
    (a : String) :
    viewNonce (voteCase sf blockHeight v vf) a =
      if a = v.voterAddress then vf.nonce else viewNonce sf a := by
  unfold viewNonce
  by_cases hB : v.voteeAddress = ""
  · rw [(voteCase_unvote sf blockHeight v vf hB).1 a]
    split <;> rfl
  · by_cases hBA : v.voterAddress = v.voteeAddress
    · rw [(voteCase_self sf blockHeight v vf hB hBA.symm).1 a]
      split <;> rfl
    · rw [(voteCase_other sf blockHeight v vf hB hBA).1 a]
      split
      · rfl
      · split <;> rfl

theorem applyVote_viewNonce (sf : Factory) (blockHeight : Nat) (v : Vote) (a : String) :
    viewNonce (applyVote sf blockHeight v) a =
      if a = v.voterAddress then max (viewNonce sf v.voterAddress) v.nonce
      else viewNonce sf a := by
  have hpre1 : viewState (voteNonce sf v).1 v.voterAddress = (voteNonce sf v).2 := by
    rw [voteNonce_viewState, if_pos rfl]
  have happ : applyVote sf blockHeight v =
      voteCase (voteClearOld (voteNonce sf v).1 v (voteNonce sf v).2).1 blockHeight v
        (voteClearOld (voteNonce sf v).1 v (voteNonce sf v).2).2 := rfl
  rw [happ, voteCase_viewNonce, voteClearOld_viewNonce _ _ _ hpre1, voteNonce_viewNonce]
  have hvfn : (voteClearOld (voteNonce sf v).1 v (voteNonce sf v).2).2.nonce
      = (voteNonce sf v).2.nonce := by
    rw [voteClearOld_snd]; split <;> rfl
  have hnonce0 : (voteNonce sf v).2.nonce
      = max (viewState sf v.voterAddress).nonce v.nonce := by
    rw [voteNonce_snd]
  split
  · rw [hvfn, hnonce0]; rfl
  · rfl

theorem applyVote_nonce_bounds (sf : Factory) (blockHeight : Nat) (v : Vote) (a : String) :
    viewNonce sf a ≤ viewNonce (applyVote sf blockHeight v) a ∧
    viewNonce (applyVote sf blockHeight v) a ≤ max (viewNonce sf a) v.nonce := by
  rw [applyVote_viewNonce]
  split
  · next h => rw [h]; omega
  · exact ⟨le_refl _, le_max_left _ _⟩

/-- Monotone-and-bounded nonce evolution lifts from one applier step to the
whole (possibly error-stopped) loop. -/
theorem stepList_nonce {α : Type} (f : Factory → α → Factory × Option FErr) (nf : α → Nat)
    (hstep : ∀ sf x a, viewNonce sf a ≤ viewNonce (f sf x).1 a ∧
      viewNonce (f sf x).1 a ≤ max (viewNonce sf a) (nf x))
    (sf : Factory) (l : List α) (a : String) :
    viewNonce sf a ≤ viewNonce (stepList f sf l).1 a ∧
    ∀ B, viewNonce sf a < B → (∀ x ∈ l, nf x < B) →
      viewNonce (stepList f sf l).1 a < B := by
  induction l generalizing sf with
  | nil => exact ⟨le_refl _, fun B hB _ => hB⟩
  | cons x xs ih =>
    unfold stepList
    dsimp only
    cases h : (f sf x).2 with
    | some e =>
      dsimp only
      refine ⟨(hstep sf x a).1, fun B hB hl => ?_⟩
      have h2 := (hstep sf x a).2
      have h3 := hl x (List.mem_cons_self x xs)
      omega
    | none =>
      dsimp only
      obtain ⟨ihm, ihb⟩ := ih (f sf x).1
      refine ⟨le_trans (hstep sf x a).1 ihm, fun B hB hl => ?_⟩
      refine ihb B ?_ (fun y hy => hl y (List.mem_cons_of_mem x hy))
      have h2 := (hstep sf x a).2
      have h3 := hl x (List.mem_cons_self x xs)
      omega

/-- Same lifting for a pure fold (the vote loop). -/
theorem foldl_nonce {α : Type} (f : Factory → α → Factory) (nf : α → Nat)
    (hstep : ∀ sf x a, viewNonce sf a ≤ viewNonce (f sf x) a ∧
      viewNonce (f sf x) a ≤ max (viewNonce sf a) (nf x))
    (sf : Factory) (l : List α) (a : String) :
    viewNonce sf a ≤ viewNonce (l.foldl f sf) a ∧
    ∀ B, viewNonce sf a < B → (∀ x ∈ l, nf x < B) → viewNonce (l.foldl f sf) a < B := by
  induction l generalizing sf with
  | nil => exact ⟨le_refl _, fun B hB _ => hB⟩
  | cons x xs ih =>
    rw [List.foldl_cons]
    obtain ⟨ihm, ihb⟩ := ih (f sf x)
    refine ⟨le_trans (hstep sf x a).1 ihm, fun B hB hl => ?_⟩
    refine ihb B ?_ (fun y hy => hl y (List.mem_cons_of_mem x hy))
    have h2 := (hstep sf x a).2
    have h3 := hl x (List.mem_cons_self x xs)
    omega

theorem alookup_isSome_of_mem {l : List (String × State)} {p : String × State}
    (hp : p ∈ l) : (alookup p.1 l).isSome := by
  induction l with
  | nil => cases hp
  | cons q qs ih =>
    unfold alookup
    by_cases h : q.1 = p.1
    · rw [if_pos h]; rfl
    · rw [if_neg h]
      rcases List.mem_cons.mp hp with rfl | hp'
      · exact absurd rfl h
      · exact ih hp'

theorem commitAccountsStep_cachedAccount (blockHeight : Nat) (sf : Factory)
    (kv : String × State) :
    (commitAccountsStep blockHeight sf kv).1.cachedAccount = sf.cachedAccount := by
  unfold commitAccountsStep
  dsimp only
  split
  · rfl
  · split <;> rfl

theorem commitAccountsStep_viewAccount (blockHeight : Nat) (sf : Factory)
    (kv : String × State) (a : String)
    (hk : (alookup kv.1 sf.cachedAccount).isSome) :
    viewAccount (commitAccountsStep blockHeight sf kv).1 a = viewAccount sf a := by
  unfold commitAccountsStep
  dsimp only
  split
  · unfold viewAccount
    dsimp only
    cases hc : alookup a sf.cachedAccount with
    | some s => rfl
    | none =>
      rw [trieGet_upsert]
      have hne : a ≠ kv.1 := by
        intro hc2
        rw [hc2] at hc
        rw [hc] at hk
        cases hk
      rw [if_neg hne]
  · split
    · unfold viewAccount
      dsimp only
      cases hc : alookup a sf.cachedAccount with
      | some s => rfl
      | none =>
        rw [trieGet_upsert]
        have hne : a ≠ kv.1 := by
          intro hc2
          rw [hc2] at hc
          rw [hc] at hk
          cases hk
        rw [if_neg hne]
    · unfold viewAccount
      dsimp only
      cases hc : alookup a sf.cachedAccount with
      | some s => rfl
      | none =>
        rw [trieGet_upsert]
        have hne : a ≠ kv.1 := by
          intro hc2
          rw [hc2] at hc
          rw [hc] at hk
          cases hk
        rw [if_neg hne]

theorem commitAccounts_viewAccount (sf : Factory) (blockHeight : Nat)
    (l : List (String × State)) (a : String)
    (hl : ∀ p ∈ l, (alookup p.1 sf.cachedAccount).isSome) :
    viewAccount (commitAccounts sf blockHeight l).1 a = viewAccount sf a := by
  induction l generalizing sf with
  | nil => rfl
  | cons p ps ih =>
    show viewAccount (stepList (commitAccountsStep blockHeight) sf (p :: ps)).1 a = _
    unfold stepList
    dsimp only
    cases h : (commitAccountsStep blockHeight sf p).2 with
    | some e =>
      dsimp only
      exact commitAccountsStep_viewAccount blockHeight sf p a
        (hl p (List.mem_cons_self p ps))
    | none =>
      dsimp only
      have hca := commitAccountsStep_cachedAccount blockHeight sf p
      exact (ih (commitAccountsStep blockHeight sf p).1
        (fun q hq => by rw [hca]; exact hl q (List.mem_cons_of_mem p hq))).trans
        (commitAccountsStep_viewAccount blockHeight sf p a (hl p (List.mem_cons_self p ps)))

theorem viewNonce_upsert_both (sf : Factory) (k : String) (s : State) (a : String) :
    viewNonce { sf with cachedAccount := aupsert k s sf.cachedAccount, accountTrie := trieUpsert sf.accountTrie k s } a = if a = k then s.nonce else viewNonce sf a := by
  unfold viewNonce viewState viewAccount
  dsimp only
  rw [alookup_aupsert]
  by_cases ha : a = k
  · rw [if_pos ha, if_pos ha]
    rfl
  · rw [if_neg ha, if_neg ha]
    cases hc : alookup a sf.cachedAccount with
    | some s2 => rfl
    | none => rw [trieGet_upsert, if_neg ha]

theorem viewNonce_trieUpsert (sf : Factory) (k : String) (s : State) (a : String)
    (hk : alookup k sf.cachedAccount = none) :
    viewNonce { sf with accountTrie := trieUpsert sf.accountTrie k s } a = if a = k then s.nonce else viewNonce sf a := by
  unfold viewNonce viewState viewAccount
  dsimp only
  by_cases ha : a = k
  · rw [if_pos ha, ha, hk, trieGet_upsert, if_pos rfl]
    rfl
  · rw [if_neg ha]
    cases hc : alookup a sf.cachedAccount with
    | some s2 => rfl
    | none => rw [trieGet_upsert, if_neg ha]

theorem applyExec_viewNonce (sf : Factory) (e : Execution) (a : String) :
    viewNonce (applyExec sf e).1 a =
      if a = e.executor ∧ (viewAccount sf e.executor).isSome then
        max (((viewState sf e.executor).nonce + 1) % w64) e.nonce
      else viewNonce sf a := by
  unfold applyExec
  cases hc : alookup e.executor sf.cachedAccount with
  | some st =>
    have hst : viewState sf e.executor = st := by
      unfold viewState viewAccount
      rw [hc]
      rfl
    have hsome : (viewAccount sf e.executor).isSome := by
      unfold viewAccount
      rw [hc]
      rfl
    dsimp only
    rw [viewNonce_upsert_both]
    by_cases ha : a = e.executor
    · rw [if_pos ha]
      dsimp only
      rw [if_gt_max, if_pos ⟨ha, hsome⟩, hst]
    · rw [if_neg ha, if_neg (fun hx : _ ∧ _ => ha hx.1)]
  | none =>
    cases ht : trieGet sf.accountTrie e.executor with
    | none =>
      have hnone : viewAccount sf e.executor = none := by
        unfold viewAccount
        rw [hc, ht]
      rw [if_neg (fun hx : _ ∧ _ => by rw [hnone] at hx; cases hx.2)]
    | some st =>
      have hst : viewState sf e.executor = st := by
        unfold viewState viewAccount
        rw [hc, ht]
        rfl
      have hsome : (viewAccount sf e.executor).isSome := by
        unfold viewAccount
        rw [hc, ht]
        rfl
      dsimp only
      rw [viewNonce_trieUpsert _ _ _ _ hc]
      by_cases ha : a = e.executor
      · rw [if_pos ha]
        dsimp only
        rw [if_gt_max, if_pos ⟨ha, hsome⟩, hst]
      · rw [if_neg ha, if_neg (fun hx : _ ∧ _ => ha hx.1)]

theorem handleExecs_nonce_mono (sf : Factory) (es : List Execution) (a : String)
    (hb0 : viewNonce sf a + es.length < w64)
    (hbe : ∀ e ∈ es, e.nonce + es.length < w64) :
    viewNonce sf a ≤ viewNonce (handleExecs sf es).1 a := by
  induction es generalizing sf with
  | nil => exact le_refl _
  | cons e rest ih =>
    have hlen : (e :: rest).length = rest.length + 1 := rfl
    rw [hlen] at hb0
    have hstep : viewNonce sf a ≤ viewNonce (applyExec sf e).1 a ∧
        viewNonce (applyExec sf e).1 a + rest.length < w64 := by
      rw [applyExec_viewNonce]
      split
      · next hx =>
        have ha : a = e.executor := hx.1
        have hv : viewNonce sf a = (viewState sf e.executor).nonce := by rw [ha]; rfl
        rw [hv] at hb0
        have hbe1 := hbe e (List.mem_cons_self e rest)
        rw [hlen] at hbe1
        have hmod : ((viewState sf e.executor).nonce + 1) % w64
            = (viewState sf e.executor).nonce + 1 := Nat.mod_eq_of_lt (by omega)
        rw [hmod]
        constructor
        · rw [hv]
          exact le_trans (Nat.le_succ _) (le_max_left _ _)
        · rcases max_choice ((viewState sf e.executor).nonce + 1) e.nonce with hm | hm <;>
            rw [hm] <;> omega
      · exact ⟨le_refl _, by omega⟩
    show viewNonce sf a ≤ viewNonce (stepList applyExec sf (e :: rest)).1 a
    unfold stepList
    dsimp only
    cases h : (applyExec sf e).2 with
    | some e2 => exact hstep.1
    | none =>
      refine le_trans hstep.1 (ih (applyExec sf e).1 hstep.2 ?_)
      intro e2 he2
      have := hbe e2 (List.mem_cons_of_mem e he2)
      rw [hlen] at this
      omega

theorem viewNonce_updateCands (sf : Factory) (c : List (String × Candidate)) (a : String) :
    viewNonce { sf with cachedCandidates := c } a = viewNonce sf a := rfl

theorem viewNonce_trieCommit (sf : Factory) (a : String) :
    viewNonce { sf with accountTrie := trieCommit sf.accountTrie } a = viewNonce sf a := by
  unfold viewNonce viewState viewAccount
  dsimp only
  cases hc : alookup a sf.cachedAccount with
  | some s => rfl
  | none => rw [trieGet_commit]

theorem viewNonce_commitTail (sfm : Factory) (h : Nat) (a : String) :
    viewNonce (commitTail sfm h).1 a = viewNonce sfm a := rfl

/-- Nonce monotonicity through steps 2–9 of the pipeline, absent contract
handles and absent `uint64` wraparound. -/
theorem commitPhases_nonce_mono (sf : Factory) (blockHeight : Nat)
    (ts : List Transfer) (vs : List Vote) (es : List Execution) (a : String)
    (hcontract : sf.cachedContract = [])
    (hb0 : viewNonce sf a + es.length < w64)
    (hbt : ∀ tx ∈ ts, tx.nonce + es.length < w64)
    (hbv : ∀ v ∈ vs, v.nonce + es.length < w64)
    (hbe : ∀ e ∈ es, e.nonce + es.length < w64) :
    viewNonce sf a ≤ viewNonce (commitPhases sf blockHeight ts vs es).1 a := by
  have h1m : viewNonce sf a ≤ viewNonce (handleTsf sf ts).1 a :=
    (stepList_nonce applyTransfer Transfer.nonce applyTransfer_nonce_bounds sf ts a).1
  have h1b : viewNonce (handleTsf sf ts).1 a + es.length < w64 := by
    have hb' : viewNonce (handleTsf sf ts).1 a < w64 - es.length :=
      (stepList_nonce applyTransfer Transfer.nonce applyTransfer_nonce_bounds sf ts a).2
        (w64 - es.length) (by omega) (fun tx htx => by have := hbt tx htx; omega)
    omega
  have h2m : viewNonce (handleTsf sf ts).1 a ≤
      viewNonce (handleVote (handleTsf sf ts).1 blockHeight vs) a :=
    (foldl_nonce (fun acc v => applyVote acc blockHeight v) Vote.nonce
      (fun s v b => applyVote_nonce_bounds s blockHeight v b) (handleTsf sf ts).1 vs a).1
  have h2b : viewNonce (handleVote (handleTsf sf ts).1 blockHeight vs) a + es.length < w64 := by
    have hb' : viewNonce (handleVote (handleTsf sf ts).1 blockHeight vs) a < w64 - es.length :=
      (foldl_nonce (fun acc v => applyVote acc blockHeight v) Vote.nonce
        (fun s v b => applyVote_nonce_bounds s blockHeight v b) (handleTsf sf ts).1 vs a).2
        (w64 - es.length) (by omega) (fun v hv => by have := hbv v hv; omega)
    omega
  have h3v : viewNonce (commitAccounts (handleVote (handleTsf sf ts).1 blockHeight vs)
      blockHeight (handleVote (handleTsf sf ts).1 blockHeight vs).cachedAccount).1 a =
      viewNonce (handleVote (handleTsf sf ts).1 blockHeight vs) a := by
    unfold viewNonce viewState
    rw [commitAccounts_viewAccount _ _ _ _ (fun p hp => alookup_isSome_of_mem hp)]
  have hcc3 : (commitAccounts (handleVote (handleTsf sf ts).1 blockHeight vs)
      blockHeight (handleVote (handleTsf sf ts).1 blockHeight vs).cachedAccount).1.cachedContract
      = [] := by
    have e1 : (commitAccounts (handleVote (handleTsf sf ts).1 blockHeight vs)
        blockHeight (handleVote (handleTsf sf ts).1 blockHeight vs).cachedAccount).1.cachedContract
        = (handleVote (handleTsf sf ts).1 blockHeight vs).cachedContract :=
      congrArg Prod.snd (duraOf_commitAccounts _ _ _)
    have e2 : (handleVote (handleTsf sf ts).1 blockHeight vs).cachedContract
        = (handleTsf sf ts).1.cachedContract :=
      congrArg Prod.snd (duraOf_handleVote _ _ _)
    have e3 : (handleTsf sf ts).1.cachedContract = sf.cachedContract :=
      congrArg Prod.snd (duraOf_handleTsf _ _)
    rw [e1, e2, e3, hcontract]
  have h4m : viewNonce (commitAccounts (handleVote (handleTsf sf ts).1 blockHeight vs)
      blockHeight (handleVote (handleTsf sf ts).1 blockHeight vs).cachedAccount).1 a ≤
      viewNonce (handleExecs (commitContracts
        (commitAccounts (handleVote (handleTsf sf ts).1 blockHeight vs) blockHeight
          (handleVote (handleTsf sf ts).1 blockHeight vs).cachedAccount).1
        (commitAccounts (handleVote (handleTsf sf ts).1 blockHeight vs) blockHeight
          (handleVote (handleTsf sf ts).1 blockHeight vs).cachedAccount).1.cachedContract)
        es).1 a := by
    rw [hcc3]
    rw [show ∀ (x : Factory), commitContracts x [] = x from fun _ => rfl]
    apply handleExecs_nonce_mono
    · rw [h3v]
      omega
    · exact hbe
  have hchain : viewNonce sf a ≤ viewNonce (handleExecs (commitContracts
      (commitAccounts (handleVote (handleTsf sf ts).1 blockHeight vs) blockHeight
        (handleVote (handleTsf sf ts).1 blockHeight vs).cachedAccount).1
      (commitAccounts (handleVote (handleTsf sf ts).1 blockHeight vs) blockHeight
        (handleVote (handleTsf sf ts).1 blockHeight vs).cachedAccount).1.cachedContract)
      es).1 a := by
    refine le_trans (le_trans h1m h2m) ?_
    rw [← h3v]
    exact h4m
  unfold commitPhases
  dsimp only
  cases h1 : (handleTsf sf ts).2 with
  | some e1 => exact h1m
  | none =>
    dsimp only
    cases h2 : (commitAccounts (handleVote (handleTsf sf ts).1 blockHeight vs) blockHeight
        (handleVote (handleTsf sf ts).1 blockHeight vs).cachedAccount).2 with
    | some e2 =>
      rw [h3v]
      exact le_trans h1m h2m
    | none =>
      dsimp only
      cases h3 : (handleExecs (commitContracts
          (commitAccounts (handleVote (handleTsf sf ts).1 blockHeight vs) blockHeight
            (handleVote (handleTsf sf ts).1 blockHeight vs).cachedAccount).1
          (commitAccounts (handleVote (handleTsf sf ts).1 blockHeight vs) blockHeight
            (handleVote (handleTsf sf ts).1 blockHeight vs).cachedAccount).1.cachedContract)
          es).2 with
      | some e3 => exact hchain
      | none =>
        dsimp only
        rw [viewNonce_commitTail, viewNonce_trieCommit]
        exact hchain

/-- Claim C10 counterexample: the execution applier's `uint64` increment
wraps.  An executor whose nonce is `2^64 - 1` ends a successful commit with
nonce 0 — the nonce decreased. -/
theorem nonce_wraparound_counterexample :
    viewNonce (mkFactory [] [("a", { newState 0 with nonce := 18446744073709551615 })] [] none 2 0)
      "a" = 18446744073709551615 ∧
    (commitStateChanges
      (mkFactory [] [("a", { newState 0 with nonce := 18446744073709551615 })] [] none 2 0)
      0 [] [] [{ executor := "a", nonce := 0 }]).2 = none ∧
    viewNonce (commitStateChanges
      (mkFactory [] [("a", { newState 0 with nonce := 18446744073709551615 })] [] none 2 0)
      0 [] [] [{ executor := "a", nonce := 0 }]).1 "a" = 0 ∧
    ¬ (18446744073709551615 : Nat) ≤ 0 :=
  ⟨rfl, by decide, by decide, by decide⟩

/-- Claim C10 (amended): for every address, a `CommitStateChanges` call never
decreases the account's nonce, provided no contract handles are in flight and
no `uint64` wraparound occurs, i.e. the address's visible nonce and every
action nonce in the call stay below `2^64` minus the number of executions.
The transfer and vote appliers only ever replace the nonce by a max with it;
the execution applier replaces it by `max((nonce+1) mod 2^64, exec.nonce)`,
which decreases exactly when the increment wraps at `2^64 - 1` (see the
counterexample).  Monotonicity across a sequence of calls follows by chaining
this bound over each call. -/
theorem nonce_monotone_no_wrap (sf : Factory) (blockHeight : Nat)
    (ts : List Transfer) (vs : List Vote) (es : List Execution) (a : String)
    (hcontract : sf.cachedContract = [])
    (hb0 : viewNonce sf a + es.length < w64)
    (hbt : ∀ tx ∈ ts, tx.nonce + es.length < w64)
    (hbv : ∀ v ∈ vs, v.nonce + es.length < w64)
    (hbe : ∀ e ∈ es, e.nonce + es.length < w64) :
    viewNonce sf a ≤ viewNonce (commitStateChanges sf blockHeight ts vs es).1 a := by
  unfold commitStateChanges
  by_cases hrec : blockHeight > 0 ∧ sf.cachedCandidates = []
  · rw [if_pos hrec]
    cases hget : trieGet sf.candidateTrie (uint64ToBytes (blockHeight - 1)) with
    | none => exact le_refl _
    | some cl =>
      dsimp only
      exact commitPhases_nonce_mono { sf with cachedCandidates := candidatesToMap cl }
        blockHeight ts vs es a
        (show ({ sf with cachedCandidates := candidatesToMap cl } : Factory).cachedContract = [] from hcontract)
        (show viewNonce { sf with cachedCandidates := candidatesToMap cl } a + es.length < w64 from hb0)
        hbt hbv hbe
  · rw [if_neg hrec]
    exact commitPhases_nonce_mono sf blockHeight ts vs es a hcontract hb0 hbt hbv hbe

def c10sf : Factory := mkFactory [("z", zCand)]
  [("a", { newState 6 with nonce := 11 }), ("b", newState 9)] [] none 2 0

def c10tx : Transfer :=
  { isContractCall := false, isCoinbase := false, sender := "a", recipient := "b",
    amount := 5, nonce := 12 }

theorem nonce_monotone_no_wrap_witness :
    c10sf.cachedContract = [] ∧
    viewNonce c10sf "a" + [({ executor := "a", nonce := 13 } : Execution)].length < w64 ∧
    viewNonce c10sf "a" ≤
      viewNonce (commitStateChanges c10sf 1 [c10tx] []
        [{ executor := "a", nonce := 13 }]).1 "a" :=
  ⟨rfl, by decide,
   nonce_monotone_no_wrap c10sf 1 [c10tx] [] [{ executor := "a", nonce := 13 }] "a"
     rfl (by decide)
     (fun tx htx => by rw [List.mem_singleton] at htx; subst htx; decide)
     (fun v hv => absurd hv (List.not_mem_nil v))
     (fun e he => by rw [List.mem_singleton] at he; subst he; decide)⟩

end Iotex
